import Mathlib

/-!
Verification development for `geminiutil/gmos/basic/mask_cut.py`.

The file shallowly embeds the three components of the module:

* `prepare_mdf_table` (slit geometry mapping) over exact rationals;
* `cut_slits` (slit cutting) over list-of-lists images, with its two
  failure modes (`ValueError` for an unprepared table, astropy `KeyError`
  for a missing derived column) made explicit in an `Except`;
* `find_mask_edges` (edge finding) over the reals, including the scipy
  Gaussian kernel (`exp`-weighted, radius `int(4*sigma + 0.5)`, reflect
  boundary), the astropy 0.2 iterative `sigma_clip`
  (`cenfunc=np.median`, `varfunc=np.var`,
  `mask = (x - med)^2 <= var * sig^2`, all points re-tested each
  iteration, kept mask all-false when the kept set is empty, matching
  the NaN comparison semantics), `itertools.groupby` run grouping and
  `np.average` centroids.

Conventions: IEEE double arithmetic is modelled by exact rational / real
arithmetic (every claim settled here is robust to rounding);
`np.round` is round-half-to-even, `.astype(int)` truncates toward zero;
Python negative-index slicing is not modelled — every claim below only
exercises non-negative in-range bounds, where list `drop`/`take`
slicing agrees with Python slicing.
-/

/-- Truncation toward zero, the semantics of numpy `.astype(int)`. -/
def ratTrunc (q : ℚ) : ℤ := if q < 0 then ⌈q⌉ else ⌊q⌋

/-- Round half to even, the semantics of `np.round` (banker's rounding). -/
def roundHalfEven (q : ℚ) : ℤ :=
  let f := ⌊q⌋
  let r := q - f
  if r < 1/2 then f
  else if 1/2 < r then f + 1
  else if f % 2 = 0 then f else f + 1

/-- The scalar parameters of `prepare_mdf_table`.  Quantities carry their
expected unit (`arcsec/pix`, `nm/pix`, `nm`, ...) as plain rationals; the
`assert`s on units in the source hold by construction in this unitless
embedding.  `ydc0, ydc1, ydc2` are the `y_distortion_coefficients`
(source default `[1, 0, 0]`), `arcsecpermm` has source default
`1.611444`. -/
structure PrepareParams where
  naxis1 : ℤ
  naxis2 : ℤ
  x_scale : ℚ
  y_scale : ℚ
  anamorphic_factor : ℚ
  wavelength_offset : ℚ
  spectral_pixel_scale : ℚ
  wavelength_start : ℚ
  wavelength_central : ℚ
  wavelength_end : ℚ
  ydc0 : ℚ
  ydc1 : ℚ
  ydc2 : ℚ
  arcsecpermm : ℚ
  y_offset : ℚ
deriving DecidableEq

/-- One raw row of the mask definition table (physical mm coordinates). -/
structure SlitRow where
  slitpos_mx : ℚ
  slitpos_my : ℚ
  slitsize_mx : ℚ
  slitsize_my : ℚ
deriving DecidableEq

/-- `slit_length = slit_size_my * arcsecpermm` (arcsec). -/
def slit_length (p : PrepareParams) (r : SlitRow) : ℚ := r.slitsize_my * p.arcsecpermm

/-- `spectrum_width = np.round(1.05 * (slit_length / y_scale)).astype(int)`. -/
def spectrum_width (p : PrepareParams) (r : SlitRow) : ℤ :=
  roundHalfEven ((21/20) * (slit_length p r / p.y_scale))

/-- `spectrum_length = np.round((wavelength_end - wavelength_start) / spectral_pixel_scale).astype(int)`. -/
def spectrum_length (p : PrepareParams) : ℤ :=
  roundHalfEven ((p.wavelength_end - p.wavelength_start) / p.spectral_pixel_scale)

/-- `wavelength_central_pixel = spectrum_length - (wavelength_central - wavelength_start) / spectral_pixel_scale`. -/
def wavelength_central_pixel (p : PrepareParams) : ℚ :=
  (spectrum_length p : ℚ) - (p.wavelength_central - p.wavelength_start) / p.spectral_pixel_scale

/-- `corrected_ypos = c0*my + c1*my**2 + c2*my**3` (mm). -/
def corrected_ypos (p : PrepareParams) (r : SlitRow) : ℚ :=
  p.ydc0 * r.slitpos_my + p.ydc1 * r.slitpos_my ^ 2 + p.ydc2 * r.slitpos_my ^ 3

/-- `x_center = naxis1 / 2.` -/
def x_center (p : PrepareParams) : ℚ := (p.naxis1 : ℚ) / 2

/-- `y_center = naxis2 / 2.` -/
def y_center (p : PrepareParams) : ℚ := (p.naxis2 : ℚ) / 2

/-- `slit_pos_x = slit_pos_mx * arcsecpermm / x_scale + x_center` (pix). -/
def slit_pos_x (p : PrepareParams) (r : SlitRow) : ℚ :=
  r.slitpos_mx * p.arcsecpermm / p.x_scale + x_center p

/-- `slit_pos_y = corrected_ypos * arcsecpermm / y_scale + y_center` (pix). -/
def slit_pos_y (p : PrepareParams) (r : SlitRow) : ℚ :=
  corrected_ypos p r * p.arcsecpermm / p.y_scale + y_center p

/-- `y = (slit_pos_y / naxis2) - 0.5; distortion_x = naxis1 * (0.0014*y - 0.0167*y**2)`. -/
def distortion_x (p : PrepareParams) (r : SlitRow) : ℚ :=
  let y := slit_pos_y p r / (p.naxis2 : ℚ) - 1/2
  (p.naxis1 : ℚ) * ((14/10000) * y - (167/10000) * y ^ 2)

/-- The unclipped `x1`:
`(np.round(x_center - (x_center - slit_pos_x)/anamorphic_factor - wavelength_central_pixel)
  + wavelength_offset/spectral_pixel_scale + distortion_x).astype(int)`. -/
def unclipped_x1 (p : PrepareParams) (r : SlitRow) : ℤ :=
  ratTrunc ((roundHalfEven (x_center p - (x_center p - slit_pos_x p r) / p.anamorphic_factor
      - wavelength_central_pixel p) : ℚ)
    + p.wavelength_offset / p.spectral_pixel_scale + distortion_x p r)

/-- The unclipped `x2 = x1 + spectrum_length`. -/
def unclipped_x2 (p : PrepareParams) (r : SlitRow) : ℤ :=
  unclipped_x1 p r + spectrum_length p

/-- The unclipped `y1 = np.round(slit_pos_y - spectrum_width/2 + y_offset).astype(int)`. -/
def unclipped_y1 (p : PrepareParams) (r : SlitRow) : ℤ :=
  roundHalfEven (slit_pos_y p r - (spectrum_width p r : ℚ) / 2 + p.y_offset)

/-- The unclipped `y2 = y1 + spectrum_width`. -/
def unclipped_y2 (p : PrepareParams) (r : SlitRow) : ℤ :=
  unclipped_y1 p r + spectrum_width p r

/-- `refpix = wavelength_central_pixel; refpix[x1 < 0] += x1` —
computed from the unclipped `x1`, before `x1` is clipped. -/
def refpix1 (p : PrepareParams) (r : SlitRow) : ℚ :=
  if unclipped_x1 p r < 0 then wavelength_central_pixel p + (unclipped_x1 p r : ℚ)
  else wavelength_central_pixel p

/-- `x1[x1 < 0] = 0`. -/
def secx1 (p : PrepareParams) (r : SlitRow) : ℤ :=
  if unclipped_x1 p r < 0 then 0 else unclipped_x1 p r

/-- `x2[x2 > naxis1] = naxis1`. -/
def secx2 (p : PrepareParams) (r : SlitRow) : ℤ :=
  if unclipped_x2 p r > p.naxis1 then p.naxis1 else unclipped_x2 p r

/-- `y1[y1 < 0] = 0`. -/
def secy1 (p : PrepareParams) (r : SlitRow) : ℤ :=
  if unclipped_y1 p r < 0 then 0 else unclipped_y1 p r

/-- `y2[y2 > naxis2] = naxis2`. -/
def secy2 (p : PrepareParams) (r : SlitRow) : ℤ :=
  if unclipped_y2 p r > p.naxis2 then p.naxis2 else unclipped_y2 p r

/-- A table is an ordered collection of named columns; column values are
rationals (integer-valued columns are embedded as integral rationals). -/
abbrev MdfTable := List (String × List ℚ)

/-- Column lookup (`table[name]`), `none` when the column is absent. -/
def lookupCol (t : MdfTable) (n : String) : Option (List ℚ) :=
  (t.find? (fun c => c.1 == n)).map (fun c => c.2)

/-- Column lookup with default `[]` (used where the source would have
raised earlier on a missing column). -/
def colD (t : MdfTable) (n : String) : List ℚ := (lookupCol t n).getD []

/-- `table[name] = values`: replace the column in place when present,
append it otherwise (astropy column assignment). -/
def setCol : MdfTable → String → List ℚ → MdfTable
  | [], n, v => [(n, v)]
  | (m, w) :: rest, n, v =>
    if m = n then (n, v) :: rest else (m, w) :: setCol rest n v

/-- Zip the four raw physical columns into rows. -/
def tableRows (t : MdfTable) : List SlitRow :=
  ((((colD t "slitpos_mx").zip (colD t "slitpos_my")).zip
      (colD t "slitsize_mx")).zip (colD t "slitsize_my")).map
    (fun x => ⟨x.1.1.1, x.1.1.2, x.1.2, x.2⟩)

/-- The pure column computation of `prepare_mdf_table`: the five derived
columns are computed from the raw columns (the numpy vectorized
arithmetic is the per-row map) and then assigned in source order
`SECX1, SECX2, SECY1, SECY2, REFPIX1`. -/
def prepare_columns (p : PrepareParams) (t : MdfTable) : MdfTable :=
  let rows := tableRows t
  setCol (setCol (setCol (setCol (setCol t
    "SECX1" (rows.map (fun r => ((secx1 p r : ℤ) : ℚ))))
    "SECX2" (rows.map (fun r => ((secx2 p r : ℤ) : ℚ))))
    "SECY1" (rows.map (fun r => ((secy1 p r : ℤ) : ℚ))))
    "SECY2" (rows.map (fun r => ((secy2 p r : ℤ) : ℚ))))
    "REFPIX1" (rows.map (fun r => refpix1 p r))

/-- The two failure modes of `prepare_mdf_table`: the astropy `KeyError`
raised on the raw column accesses of lines 122-124 when a column is
absent, and the numpy broadcast `ValueError` raised by line 185,
`refpix[x1 < 0] += x1`: the in-place add writes the full-length `x1`
(n entries) into the k-element selection `refpix[x1 < 0]`, which
broadcasts only when `k = n` (every row left-clipped) or `n = 1`. -/
inductive PrepErr
  | keyErr (col : String)
  | broadcastErr
deriving DecidableEq

/-- `prepare_mdf_table(mdf_table, naxis1, ...)`.  Line 121 copies the
argument; lines 122-124 read the four raw columns (`KeyError` if one is
absent); the vectorized arithmetic is pure; line 185 raises the
broadcast `ValueError` unless the table has at most one row or every
row's unclipped `x1` is negative; only then are the five derived
columns assigned and the copy returned. -/
def prepare_mdf_table (p : PrepareParams) (t : MdfTable) : Except PrepErr MdfTable :=
  match lookupCol t "slitpos_mx" with
  | none => .error (.keyErr "slitpos_mx")
  | some _ =>
    match lookupCol t "slitpos_my" with
    | none => .error (.keyErr "slitpos_my")
    | some _ =>
      match lookupCol t "slitsize_mx" with
      | none => .error (.keyErr "slitsize_mx")
      | some _ =>
        match lookupCol t "slitsize_my" with
        | none => .error (.keyErr "slitsize_my")
        | some _ =>
          if (tableRows t).length ≤ 1 ∨ ∀ r ∈ tableRows t, unclipped_x1 p r < 0
          then .ok (prepare_columns p t)
          else .error .broadcastErr

/-- Calling `prepare_mdf_table` with table objects modelled explicitly:
the heap is the list of live table objects and a table argument is an
index into it.  Line 121 of the source, `mdf_table = table.Table(mdf_table)`,
allocates a fresh table (a copy); every subsequent column assignment
targets that copy.  On success the copy is appended to the heap and its
index returned; on a `KeyError`/`ValueError` the exception propagates,
no index is returned, and the caller-visible heap entries are unchanged
(the partly built copy is unreachable). -/
def prepare_mdf_table_call (heap : List MdfTable) (ref : ℕ) (p : PrepareParams) :
    Except PrepErr (ℕ × List MdfTable) :=
  match prepare_mdf_table p ((heap[ref]?).getD []) with
  | .ok t2 => .ok (heap.length, heap ++ [t2])
  | .error e => .error e

/-- `l[a:b]` for natural bounds: Python list slicing at non-negative
in-range indices. -/
def natSlice {α : Type} (l : List α) (a b : ℕ) : List α := (l.drop a).take (b - a)

/-- Normalize one Python slice bound against a length: a negative index
counts from the end (`max(len + i, 0)`), a non-negative one is capped at
`len`.  This is CPython's `PySlice_AdjustIndices` for step 1, which is
also what numpy basic slicing uses. -/
def pyIdx (len : ℕ) (i : ℤ) : ℕ :=
  if i < 0 then ((len : ℤ) + i).toNat else min i.toNat len

/-- `l[a:b]` at integer bounds with Python's negative-index wrapping. -/
def pySlice {α : Type} (l : List α) (a b : ℤ) : List α :=
  natSlice l (pyIdx l.length a) (pyIdx l.length b)

/-- `image[y1:y2, x1:x2]` for a box `(x1, x2, y1, y2)` as unpacked in the
`cut_slits` loop. -/
def sliceBox {α : Type} (img : List (List α)) (b : ℤ × ℤ × ℤ × ℤ) : List (List α) :=
  (pySlice img b.2.2.1 b.2.2.2).map (fun row => pySlice row b.1 b.2.1)

/-- Stamp the sentinel `-1000` into the normalized column range `[a, b)`
of one row (`c` is the running column index). -/
def stampCols (a b : ℕ) : ℕ → List ℚ → List ℚ
  | _, [] => []
  | c, v :: rest =>
    (if a ≤ c ∧ c < b then -1000 else v) :: stampCols a b (c + 1) rest

/-- Stamp the sentinel into the normalized row range `[ys, ye)`; the raw
column bounds `x1, x2` are normalized against each row's length, the
Python/numpy wrapping of negative bounds included (`r` is the running
row index). -/
def stampRows (x1 x2 : ℤ) (ys ye : ℕ) : ℕ → List (List ℚ) → List (List ℚ)
  | _, [] => []
  | r, row :: rest =>
    (if ys ≤ r ∧ r < ye then stampCols (pyIdx row.length x1) (pyIdx row.length x2) 0 row
     else row) :: stampRows x1 x2 ys ye (r + 1) rest

/-- `cut_image[y1:y2, x1:x2] = -1000` for one box, all four bounds
normalized with Python's negative-index wrapping. -/
def stampBox (img : List (List ℚ)) (b : ℤ × ℤ × ℤ × ℤ) : List (List ℚ) :=
  stampRows b.1 b.2.1 (pyIdx img.length b.2.2.1) (pyIdx img.length b.2.2.2) 0 img

/-- The kind of an extension in the output HDU list; the source names the
extensions `'DATA_%d' % i`, `'UNCERTAINTY_%d' % i`, `'MASK_%d' % i`. -/
inductive HduKind
  | data
  | uncertainty
  | mask
deriving DecidableEq

/-- One output extension: kind, slit index label, pixel payload. -/
abbrev Hdu := HduKind × ℕ × List (List ℚ)

/-- The two failure modes of `cut_slits`: the explicit
`ValueError('The supplied table has not been prepared')` raised when
`'SECX1' not in mdf_table.colnames`, and the astropy `KeyError` raised on
the later multi-column access when another derived column is absent. -/
inductive CutErr
  | notPrepared
  | keyErr (col : String)
deriving DecidableEq

/-- The body of the `cut_slits` loop for slit `i`: append the `DATA_i`
cutout, then the `UNCERTAINTY_i` cutout when an uncertainty plane was
supplied, then the `MASK_i` cutout when a mask plane was supplied. -/
def hduBlock (data : List (List ℚ)) (uncertainty mask : Option (List (List ℚ)))
    (i : ℕ) (b : ℤ × ℤ × ℤ × ℤ) : List Hdu :=
  (HduKind.data, i, sliceBox data b) ::
    ((match uncertainty with
      | some u => [(HduKind.uncertainty, i, sliceBox u b)]
      | none => []) ++
     (match mask with
      | some m => [(HduKind.mask, i, sliceBox m b)]
      | none => []))

/-- Row iteration over `mdf_table['SECX1','SECX2','SECY1','SECY2']`: the
four (integer-valued) columns zipped into `(x1, x2, y1, y2)` boxes. -/
def zip4Cols (c1 c2 c3 c4 : List ℚ) : List (ℤ × ℤ × ℤ × ℤ) :=
  (((c1.zip c2).zip c3).zip c4).map (fun x => (⌊x.1.1.1⌋, ⌊x.1.1.2⌋, ⌊x.1.2⌋, ⌊x.2⌋))

/-- `cut_slits(data, mdf_table, uncertainty, mask, return_cut_image)`.
The result pairs the optional annotated copy of `data` (present exactly
when `return_cut_image` was requested; the source then returns
`(cut_image, final_hdu_list)` instead of `final_hdu_list` alone) with
the ordered HDU bundle. -/
def cut_slits (data : List (List ℚ)) (mdf_table : MdfTable)
    (uncertainty mask : Option (List (List ℚ))) (return_cut_image : Bool) :
    Except CutErr (Option (List (List ℚ)) × List Hdu) :=
  match lookupCol mdf_table "SECX1" with
  | none => .error .notPrepared
  | some c1 =>
    match lookupCol mdf_table "SECX2" with
    | none => .error (.keyErr "SECX2")
    | some c2 =>
      match lookupCol mdf_table "SECY1" with
      | none => .error (.keyErr "SECY1")
      | some c3 =>
        match lookupCol mdf_table "SECY2" with
        | none => .error (.keyErr "SECY2")
        | some c4 =>
          let boxes := zip4Cols c1 c2 c3 c4
          let bundle :=
            (boxes.enum.map (fun ib => hduBlock data uncertainty mask ib.1 ib.2)).flatten
          let cutImg :=
            if return_cut_image then some (boxes.foldl stampBox data) else none
          .ok (cutImg, bundle)

/-- Boolean comparator for real mergeSort (`decide` on `≤`, classical). -/
noncomputable def rle (a b : ℝ) : Bool := decide (a ≤ b)

/-- `np.median`: middle of the sorted data for odd length, mean of the
two middle elements for even length.  `np.median` of an empty array is
NaN; the model returns `0` there, and faithfulness is preserved because
`keptStep` tests the kept set for emptiness before any comparison
against the median (a NaN comparison is always false in numpy, which is
exactly the all-false branch below). -/
noncomputable def npMedian (l : List ℝ) : ℝ :=
  let s := l.mergeSort rle
  if l.length % 2 = 1 then s.getD (l.length / 2) 0
  else (s.getD (l.length / 2 - 1) 0 + s.getD (l.length / 2) 0) / 2

/-- `np.mean`. -/
noncomputable def npMean (l : List ℝ) : ℝ := l.sum / l.length

/-- `np.var` (population variance, the astropy 0.2 `varfunc` default). -/
noncomputable def npVar (l : List ℝ) : ℝ :=
  (l.map (fun x => (x - npMean l) ^ 2)).sum / l.length

/-- One iteration of astropy 0.2 `stats.sigma_clip`:
`do = data - cenfunc(data[mask]); mask = do*do <= varfunc(data[mask]) * sig**2`,
with `cenfunc = np.median`, `varfunc = np.var`; `kept` is the running
keep mask (`True` = kept), every point is re-tested each iteration. -/
noncomputable def keptStep (data : List ℝ) (sig : ℚ) (kept : List Bool) : List Bool :=
  let keptVals := (data.zip kept).filterMap (fun xb => if xb.2 then some xb.1 else none)
  if keptVals.isEmpty then data.map (fun _ => false)
  else
    let med := npMedian keptVals
    let v := npVar keptVals
    data.map (fun x => decide ((x - med) ^ 2 ≤ v * ((sig : ℝ)) ^ 2))

/-- `sigma_clip(..., sig, iters)` keep mask after `iters` iterations,
starting from the all-kept mask `np.ones(size, bool)`. -/
noncomputable def sigmaClipKeep (data : List ℝ) (sig : ℚ) (iters : ℕ) : List Bool :=
  (keptStep data sig)^[iters] (data.map (fun _ => true))

/-- `int(truncate * sigma + 0.5)` with scipy default `truncate = 4.0`. -/
def gaussKernelRadius (sigma : ℚ) : ℕ := (ratTrunc (4 * sigma + 1/2)).toNat

/-- Unnormalized scipy Gaussian kernel weight `exp(-0.5 * k^2 / sigma^2)`. -/
noncomputable def gaussWeight (sigma : ℚ) (k : ℤ) : ℝ :=
  Real.exp (-(1/2) * (k : ℝ) ^ 2 / ((sigma : ℝ)) ^ 2)

/-- Index into the scipy `mode='reflect'` boundary extension
(`(d c b a | a b c d | d c b a)`), for `0 < n`. -/
def reflectIdx (n : ℕ) (j : ℤ) : ℕ :=
  let m := (2 * n : ℤ)
  let r := j % m
  if r < n then r.toNat else (m - 1 - r).toNat

/-- `scipy.ndimage.gaussian_filter` on a 1-D array: correlate with the
normalized Gaussian kernel of radius `gaussKernelRadius sigma` under the
reflect boundary mode. -/
noncomputable def gaussianFilter (sigma : ℚ) (l : List ℝ) : List ℝ :=
  let n := l.length
  let lw := gaussKernelRadius sigma
  let ks : List ℤ := (List.range (2 * lw + 1)).map (fun j => Int.ofNat j - Int.ofNat lw)
  let w : ℝ := (ks.map (gaussWeight sigma)).sum
  (List.range n).map (fun i =>
    (ks.map (fun k => gaussWeight sigma k * l.getD (reflectIdx n (Int.ofNat i + k)) 0)).sum / w)

/-- `np.diff(flat_image, axis=0)`: row `i` of the result is
`row[i+1] - row[i]` elementwise. -/
def npDiffRows (img : List (List ℝ)) : List (List ℝ) :=
  (img.zip img.tail).map (fun rr => List.zipWith (fun a b => b - a) rr.1 rr.2)

/-- `np.median(gradient_image[:, use_image_columns], axis=1)` with
`use_image_columns` at its source default `slice(None)` (all columns,
the only case the claims exercise). -/
noncomputable def medianGradientProfile (img : List (List ℝ)) : List ℝ :=
  (npDiffRows img).map npMedian

/-- Maximal runs of consecutive indices at which the mask is `true`
(`itertools.groupby(pixel_index, key)` restricted to the groups with
key `False` on the complemented mask); `i` is the index of the head of
the remaining list. -/
def groupRunsAux : ℕ → List Bool → List (List ℕ)
  | _, [] => []
  | i, b :: rest =>
    let r := groupRunsAux (i + 1) rest
    if b then
      match r with
      | (j :: js) :: rs =>
        if j = i + 1 then (i :: j :: js) :: rs else [i] :: (j :: js) :: rs
      | other => [i] :: other
    else r

/-- Runs of consecutive `true` positions of a mask, in index order. -/
def groupRuns (mask : List Bool) : List (List ℕ) := groupRunsAux 0 mask

/-- Sum of the weights of a run (`np.average` denominator). -/
noncomputable def runWeightSum (w : List ℝ) (run : List ℕ) : ℝ :=
  (run.map (fun i => w.getD i 0)).sum

/-- `np.average(edge_group, weights=w[edge_group])`. -/
noncomputable def runCentroid (w : List ℝ) (run : List ℕ) : ℝ :=
  (run.map (fun i => (Nat.cast i : ℝ) * w.getD i 0)).sum / runWeightSum w run

/-- The variable `gradient_profile` of the source: the Gaussian-smoothed
per-row median of the gradient image. -/
noncomputable def gradient_profile (flat_image : List (List ℝ))
    (gauss_filter_sigma : ℚ) : List ℝ :=
  gaussianFilter gauss_filter_sigma (medianGradientProfile flat_image)

/-- `clipped_gradient_profile.mask`: `True` marks the sigma-clipping
outliers, the edge candidate samples. -/
noncomputable def clippedCandidates (flat_image : List (List ℝ))
    (gauss_filter_sigma sigma_clip_sigma : ℚ) (sigma_clip_iter : ℕ) : List Bool :=
  (sigmaClipKeep (gradient_profile flat_image gauss_filter_sigma) sigma_clip_sigma
    sigma_clip_iter).map (fun b => !b)

/-- `peak_mask = clipped_gradient_profile.mask & (data >= 0)`. -/
noncomputable def peak_mask (flat_image : List (List ℝ))
    (gauss_filter_sigma sigma_clip_sigma : ℚ) (sigma_clip_iter : ℕ) : List Bool :=
  List.zipWith (fun c x => c && decide (0 ≤ x))
    (clippedCandidates flat_image gauss_filter_sigma sigma_clip_sigma sigma_clip_iter)
    (gradient_profile flat_image gauss_filter_sigma)

/-- `trough_mask = clipped_gradient_profile.mask & (data < 0)`. -/
noncomputable def trough_mask (flat_image : List (List ℝ))
    (gauss_filter_sigma sigma_clip_sigma : ℚ) (sigma_clip_iter : ℕ) : List Bool :=
  List.zipWith (fun c x => c && decide (x < 0))
    (clippedCandidates flat_image gauss_filter_sigma sigma_clip_sigma sigma_clip_iter)
    (gradient_profile flat_image gauss_filter_sigma)

/-- `lower_edge_groups` with the singleton groups discarded
(`if len(edge_group) == 1: continue`). -/
noncomputable def lower_groups (flat_image : List (List ℝ))
    (gauss_filter_sigma sigma_clip_sigma : ℚ) (sigma_clip_iter : ℕ) : List (List ℕ) :=
  (groupRuns (peak_mask flat_image gauss_filter_sigma sigma_clip_sigma
    sigma_clip_iter)).filter (fun g => g.length != 1)

/-- `upper_edge_groups` with the singleton groups discarded. -/
noncomputable def upper_groups (flat_image : List (List ℝ))
    (gauss_filter_sigma sigma_clip_sigma : ℚ) (sigma_clip_iter : ℕ) : List (List ℕ) :=
  (groupRuns (trough_mask flat_image gauss_filter_sigma sigma_clip_sigma
    sigma_clip_iter)).filter (fun g => g.length != 1)

/-- `find_mask_edges(flat_image, gauss_filter_sigma, sigma_clip_sigma,
sigma_clip_iter)`.  Output: the peak candidate mask, the trough
candidate mask (the source wraps these as masked arrays whose masks are
the complements), the lower edge centroids and the upper edge
centroids.  `.error ()` models the `ZeroDivisionError` that
`np.average` raises when a surviving group's weights sum to zero; the
centroid weights are `gradient_profile[edge_group]`, the smoothed
profile. -/
noncomputable def find_mask_edges (flat_image : List (List ℝ))
    (gauss_filter_sigma : ℚ) (sigma_clip_sigma : ℚ) (sigma_clip_iter : ℕ) :
    Except Unit (List Bool × List Bool × List ℝ × List ℝ) :=
  if ((lower_groups flat_image gauss_filter_sigma sigma_clip_sigma sigma_clip_iter) ++
      (upper_groups flat_image gauss_filter_sigma sigma_clip_sigma sigma_clip_iter)).any
      (fun g => decide (runWeightSum (gradient_profile flat_image gauss_filter_sigma) g = 0))
  then .error ()
  else
    .ok (peak_mask flat_image gauss_filter_sigma sigma_clip_sigma sigma_clip_iter,
      trough_mask flat_image gauss_filter_sigma sigma_clip_sigma sigma_clip_iter,
      (lower_groups flat_image gauss_filter_sigma sigma_clip_sigma sigma_clip_iter).map
        (runCentroid (gradient_profile flat_image gauss_filter_sigma)),
      (upper_groups flat_image gauss_filter_sigma sigma_clip_sigma sigma_clip_iter).map
        (runCentroid (gradient_profile flat_image gauss_filter_sigma)))

/-- Modelled from the spec, for comparison in claim C5 only (the source
has no such definition): the "gradient-weighted centroid (average of row
indices weighted by the (unsmoothed) gradient-profile magnitude at those
indices)"; `profile` is the unsmoothed (pre-Gaussian-filter) gradient
profile. -/
noncomputable def specRunCentroidUnsmoothed (profile : List ℝ) (run : List ℕ) : ℝ :=
  (run.map (fun i => (Nat.cast i : ℝ) * |profile.getD i 0|)).sum /
    (run.map (fun i => |profile.getD i 0|)).sum

/-- Concrete `prepare_mdf_table` parameters used in counterexamples and
witnesses: a 10x10 frame, unit scales, `[wavelength_start, wavelength_end]
= [0, 2]` at unit spectral pixel scale (so `spectrum_length = 2`,
`wavelength_central_pixel = 2`), identity distortion coefficients,
`arcsecpermm = 1`. -/
def pEx : PrepareParams := ⟨10, 10, 1, 1, 1, 0, 1, 0, 0, 2, 1, 0, 0, 1, 0⟩

/-- A slit whose unclipped box lands entirely right of the frame
(`x1 = 103 > naxis1 = 10`). -/
def rowFar : SlitRow := ⟨100, 0, 1, 0⟩

/-- A slit whose unclipped box is inside the frame. -/
def rowIn : SlitRow := ⟨0, 0, 1, 0⟩

/-- Raw one-row table holding `rowFar`. -/
def tFar : MdfTable :=
  [("slitpos_mx", [100]), ("slitpos_my", [0]), ("slitsize_mx", [1]), ("slitsize_my", [0])]

/-- Raw one-row table holding `rowIn`. -/
def tIn : MdfTable :=
  [("slitpos_mx", [0]), ("slitpos_my", [0]), ("slitsize_mx", [1]), ("slitsize_my", [0])]

/-- A slit whose unclipped box starts left of the frame (`x1 = -97 < 0`). -/
def rowNeg : SlitRow := ⟨-100, 0, 1, 0⟩

/-- Raw one-row table holding `rowNeg`. -/
def tNeg : MdfTable :=
  [("slitpos_mx", [-100]), ("slitpos_my", [0]), ("slitsize_mx", [1]), ("slitsize_my", [0])]

/-- Raw two-row table holding two copies of the ordinary in-frame slit
`rowIn`: line 185 crashes on it (`x1 = [3, 3]`, mask `[False, False]`
selects zero elements, and a length-2 array cannot broadcast into
them). -/
def tTwo : MdfTable :=
  [("slitpos_mx", [0, 0]), ("slitpos_my", [0, 0]),
   ("slitsize_mx", [1, 1]), ("slitsize_my", [0, 0])]

/-- A table carrying only the `SECX1` derived column. -/
def tOnlyX1 : MdfTable := [("SECX1", [])]

/-- A fully prepared (derived-columns-only) one-row table: box
`[0,1) x [0,1)`. -/
def tPrep : MdfTable :=
  [("SECX1", [0]), ("SECX2", [1]), ("SECY1", [0]), ("SECY2", [1])]

/-- Number of HDUs appended per slit: the data cutout plus one per
supplied optional plane. -/
def blockSize (u m : Option (List (List ℚ))) : ℕ :=
  1 + (if u.isSome then 1 else 0) + (if m.isSome then 1 else 0)

/-- Pixel `(r, c)` lies inside box `b = (x1, x2, y1, y2)`, i.e. in
`[y1, y2) x [x1, x2)`. -/
def inBox (b : ℤ × ℤ × ℤ × ℤ) (r c : ℕ) : Prop :=
  b.2.2.1 ≤ (r : ℤ) ∧ (r : ℤ) < b.2.2.2 ∧ b.1 ≤ (c : ℤ) ∧ (c : ℤ) < b.2.1

instance (b : ℤ × ℤ × ℤ × ℤ) (r c : ℕ) : Decidable (inBox b r c) := by
  unfold inBox
  infer_instance

/-- Pixel `(r, c)` lies inside box `b = (x1, x2, y1, y2)` after the four
bounds are normalized against the image dimensions the way Python/numpy
slicing does (negative bounds wrap); this is the set of pixels
`cut_image[y1:y2, x1:x2] = -1000` actually writes. -/
def inBoxPy (nrows rowlen : ℕ) (b : ℤ × ℤ × ℤ × ℤ) (r c : ℕ) : Prop :=
  pyIdx nrows b.2.2.1 ≤ r ∧ r < pyIdx nrows b.2.2.2 ∧
  pyIdx rowlen b.1 ≤ c ∧ c < pyIdx rowlen b.2.1

instance (nrows rowlen : ℕ) (b : ℤ × ℤ × ℤ × ℤ) (r c : ℕ) :
    Decidable (inBoxPy nrows rowlen b r c) := by
  unfold inBoxPy
  infer_instance

/-- A prepared one-row table whose box has a negative `SECX2` (the
one-sided clipping of `prepare_mdf_table` produces such boxes for slits
mapping fully left of the frame); Python slicing wraps the `-2`. -/
def tNegBox : MdfTable :=
  [("SECX1", [0]), ("SECX2", [-2]), ("SECY1", [0]), ("SECY2", [1])]

/-- `[a, a+1, ..., a+n)` is a maximal run of `true` positions of `mask`:
nonempty, in range, all-candidate, and not extendable on either side. -/
def isMaxRun (mask : List Bool) (a n : ℕ) : Prop :=
  1 ≤ n ∧ a + n ≤ mask.length ∧
  (∀ j, a ≤ j → j < a + n → mask.getD j false = true) ∧
  (a = 0 ∨ mask.getD (a - 1) false = false) ∧
  mask.getD (a + n) false = false

/-- The weight of the radius-1 Gaussian kernel at `sigma = 1/5`:
`exp(-0.5 * 1 / (1/5)^2) = exp(-25/2)`. -/
noncomputable def eGauss : ℝ := Real.exp (-(25/2))

/-- The 13x1 test image for claim C5: its gradient profile is
`[0 x 10, 100, 100]`. -/
noncomputable def img13 : List (List ℝ) :=
  [[0], [0], [0], [0], [0], [0], [0], [0], [0], [0], [0], [100], [200]]

/-- The unsmoothed gradient profile of `img13`. -/
noncomputable def p12 : List ℝ := [(0:ℝ), 0, 0, 0, 0, 0, 0, 0, 0, 0, 100, 100]

/-- The smoothed gradient profile of `img13` at `sigma = 1/5`. -/
noncomputable def s12 : List ℝ :=
  [0, 0, 0, 0, 0, 0, 0, 0, 0, 100 * eGauss / (1 + 2 * eGauss),
   (100 + 100 * eGauss) / (1 + 2 * eGauss), (100 + 200 * eGauss) / (1 + 2 * eGauss)]

/-- The values kept after the first iteration, as an explicit list. -/
noncomputable def kv2 : List ℝ :=
  [0, 0, 0, 0, 0, 0, 0, 0, 0, 100 * eGauss / (1 + 2 * eGauss)]

/-- Looking a column up right after assigning it. -/
theorem lookupCol_setCol_self (t : MdfTable) (n : String) (v : List ℚ) :
    lookupCol (setCol t n v) n = some v := by
  induction t with
  | nil => simp [setCol, lookupCol]
  | cons hd tl ih =>
    obtain ⟨m, w⟩ := hd
    by_cases h : m = n
    · simp [setCol, h, lookupCol]
    · simpa [setCol, h, lookupCol, List.find?] using ih

/-- Assigning one column leaves every other column unchanged. -/
theorem lookupCol_setCol_ne (t : MdfTable) (n m : String) (v : List ℚ) (h : m ≠ n) :
    lookupCol (setCol t n v) m = lookupCol t m := by
  induction t with
  | nil =>
    simp only [setCol, lookupCol]
    rw [List.find?_cons_of_neg _ (by simp [Ne.symm h])]
  | cons hd tl ih =>
    obtain ⟨k, w⟩ := hd
    by_cases hk : k = n
    · subst hk
      have hset : setCol ((k, w) :: tl) k v = (k, v) :: tl := by simp [setCol]
      rw [hset]
      unfold lookupCol
      rw [List.find?_cons_of_neg _ (by simp [Ne.symm h]),
        List.find?_cons_of_neg _ (by simp [Ne.symm h])]
    · have hset : setCol ((k, w) :: tl) n v = (k, w) :: setCol tl n v := by
        simp [setCol, hk]
      rw [hset]
      by_cases hkm : k = m
      · subst hkm
        unfold lookupCol
        rw [List.find?_cons_of_pos _ (by simp), List.find?_cons_of_pos _ (by simp)]
      · unfold lookupCol
        rw [List.find?_cons_of_neg _ (by simp [hkm]),
          List.find?_cons_of_neg _ (by simp [hkm])]
        exact ih

/-- The `SECX1` column of a prepared table. -/
theorem colD_prepare_SECX1 (p : PrepareParams) (t : MdfTable) :
    colD (prepare_columns p t) "SECX1" =
      (tableRows t).map (fun r => ((secx1 p r : ℤ) : ℚ)) := by
  unfold prepare_columns colD
  rw [lookupCol_setCol_ne _ _ _ _ (by decide), lookupCol_setCol_ne _ _ _ _ (by decide),
    lookupCol_setCol_ne _ _ _ _ (by decide), lookupCol_setCol_ne _ _ _ _ (by decide),
    lookupCol_setCol_self]
  rfl

/-- The `SECX2` column of a prepared table. -/
theorem colD_prepare_SECX2 (p : PrepareParams) (t : MdfTable) :
    colD (prepare_columns p t) "SECX2" =
      (tableRows t).map (fun r => ((secx2 p r : ℤ) : ℚ)) := by
  unfold prepare_columns colD
  rw [lookupCol_setCol_ne _ _ _ _ (by decide), lookupCol_setCol_ne _ _ _ _ (by decide),
    lookupCol_setCol_ne _ _ _ _ (by decide), lookupCol_setCol_self]
  rfl

/-- The `SECY1` column of a prepared table. -/
theorem colD_prepare_SECY1 (p : PrepareParams) (t : MdfTable) :
    colD (prepare_columns p t) "SECY1" =
      (tableRows t).map (fun r => ((secy1 p r : ℤ) : ℚ)) := by
  unfold prepare_columns colD
  rw [lookupCol_setCol_ne _ _ _ _ (by decide), lookupCol_setCol_ne _ _ _ _ (by decide),
    lookupCol_setCol_self]
  rfl

/-- The `SECY2` column of a prepared table. -/
theorem colD_prepare_SECY2 (p : PrepareParams) (t : MdfTable) :
    colD (prepare_columns p t) "SECY2" =
      (tableRows t).map (fun r => ((secy2 p r : ℤ) : ℚ)) := by
  unfold prepare_columns colD
  rw [lookupCol_setCol_ne _ _ _ _ (by decide), lookupCol_setCol_self]
  rfl

/-- The `REFPIX1` column of a prepared table. -/
theorem colD_prepare_REFPIX1 (p : PrepareParams) (t : MdfTable) :
    colD (prepare_columns p t) "REFPIX1" =
      (tableRows t).map (fun r => refpix1 p r) := by
  unfold prepare_columns colD
  rw [lookupCol_setCol_self]
  rfl

/-- `np.round` is the identity on integers. -/
theorem roundHalfEven_intCast (n : ℤ) : roundHalfEven (n : ℚ) = n := by
  simp [roundHalfEven]

/-- `.astype(int)` is the identity on integers. -/
theorem ratTrunc_intCast (n : ℤ) : ratTrunc (n : ℚ) = n := by
  simp [ratTrunc]

/-- Evaluation of the unclipped geometry at `pEx`/`rowFar`. -/
theorem unclipped_x1_pEx_rowFar : unclipped_x1 pEx rowFar = 103 := by
  norm_num [unclipped_x1, ratTrunc, roundHalfEven, x_center, slit_pos_x,
    wavelength_central_pixel, spectrum_length, distortion_x, slit_pos_y, corrected_ypos,
    y_center, pEx, rowFar]

/-- `spectrum_length` at `pEx`. -/
theorem spectrum_length_pEx : spectrum_length pEx = 2 := by
  norm_num [spectrum_length, roundHalfEven, pEx]

/-- Inversion of a successful `prepare_mdf_table` call: the returned
table is exactly the pure column computation applied to the copy. -/
theorem prepare_mdf_table_ok_inv (p : PrepareParams) (t t2 : MdfTable)
    (h : prepare_mdf_table p t = .ok t2) : t2 = prepare_columns p t := by
  unfold prepare_mdf_table at h
  repeat' split at h
  all_goals simp_all

/-- `prepare_mdf_table` succeeds on the one-row table `tFar` (a single
row cannot trip the line-185 broadcast). -/
theorem prepare_tFar :
    prepare_mdf_table pEx tFar = .ok (prepare_columns pEx tFar) := rfl

/-- `prepare_mdf_table` succeeds on the one-row table `tIn`. -/
theorem prepare_tIn :
    prepare_mdf_table pEx tIn = .ok (prepare_columns pEx tIn) := rfl

/-- `prepare_mdf_table` succeeds on the one-row table `tNeg`. -/
theorem prepare_tNeg :
    prepare_mdf_table pEx tNeg = .ok (prepare_columns pEx tNeg) := rfl

/-- C1, counterexample: the claimed invariant
`0 ≤ SECX1 ≤ SECX2 ≤ naxis1` fails for a slit mapping fully outside the
frame: with `pEx` and `rowFar` the unclipped box is `[103, 105)`, the
code clips only `x2` down to `naxis1 = 10` and leaves `x1` at `103`, so
the prepared row has `SECX1 = 103 > SECX2 = 10 = naxis1` — an inverted
box, not a degenerate one. -/
theorem C1_counterexample :
    prepare_mdf_table pEx tFar = .ok (prepare_columns pEx tFar) ∧
    (colD (prepare_columns pEx tFar) "SECX1")[0]? = some 103 ∧
    (colD (prepare_columns pEx tFar) "SECX2")[0]? = some 10 ∧
    ¬(secx1 pEx rowFar ≤ secx2 pEx rowFar) ∧ ¬(secx1 pEx rowFar ≤ pEx.naxis1) := by
  have hrows : tableRows tFar = [rowFar] := by decide
  have hx1 : secx1 pEx rowFar = 103 := by
    simp [secx1, unclipped_x1_pEx_rowFar]
  have hx2 : secx2 pEx rowFar = 10 := by
    simp [secx2, unclipped_x2, unclipped_x1_pEx_rowFar, spectrum_length_pEx]
    norm_num [pEx]
  refine ⟨prepare_tFar, ?_, ?_, ?_, ?_⟩
  · simp [colD_prepare_SECX1, hrows, hx1]
  · simp [colD_prepare_SECX2, hrows, hx2]
  · simp [hx1, hx2]
  · simp [hx1]
    norm_num [pEx]

/-- C1 (amended): when `prepare_mdf_table` returns at all — line 185
(`refpix[x1 < 0] += x1`) raises a numpy broadcast `ValueError` unless
the table has at most one row or every row's unclipped `x1` is negative
— a returned row satisfies `0 ≤ SECX1 ≤ SECX2 ≤ naxis1` and
`0 ≤ SECY1 ≤ SECY2 ≤ naxis2` provided its unclipped box has
non-negative width and height and is not entirely outside the frame on
either axis (`x1 ≤ naxis1`, `0 ≤ x2`, `y1 ≤ naxis2`, `0 ≤ y2`); under
those conditions negative or oversized intermediate coordinates are
clipped into range, while a slit entirely outside the frame instead
produces an inverted box (`C1_counterexample`), not an error. -/
theorem C1_clip_invariant (p : PrepareParams) (t t2 : MdfTable) (i : ℕ) (r : SlitRow)
    (hok : prepare_mdf_table p t = .ok t2)
    (hrow : (tableRows t)[i]? = some r)
    (hn1 : 0 ≤ p.naxis1) (hn2 : 0 ≤ p.naxis2)
    (hsl : 0 ≤ spectrum_length p) (hsw : 0 ≤ spectrum_width p r)
    (hx1 : unclipped_x1 p r ≤ p.naxis1) (hx2 : 0 ≤ unclipped_x2 p r)
    (hy1 : unclipped_y1 p r ≤ p.naxis2) (hy2 : 0 ≤ unclipped_y2 p r) :
    ((colD t2 "SECX1")[i]? = some ((secx1 p r : ℤ) : ℚ) ∧
     (colD t2 "SECX2")[i]? = some ((secx2 p r : ℤ) : ℚ) ∧
     (colD t2 "SECY1")[i]? = some ((secy1 p r : ℤ) : ℚ) ∧
     (colD t2 "SECY2")[i]? = some ((secy2 p r : ℤ) : ℚ)) ∧
    (0 ≤ secx1 p r ∧ secx1 p r ≤ secx2 p r ∧ secx2 p r ≤ p.naxis1 ∧
     0 ≤ secy1 p r ∧ secy1 p r ≤ secy2 p r ∧ secy2 p r ≤ p.naxis2) := by
  have ht2 := prepare_mdf_table_ok_inv p t t2 hok
  subst ht2
  constructor
  · refine ⟨?_, ?_, ?_, ?_⟩ <;>
      simp [colD_prepare_SECX1, colD_prepare_SECX2, colD_prepare_SECY1, colD_prepare_SECY2,
        List.getElem?_map, hrow]
  · simp only [unclipped_x2, unclipped_y2] at hx2 hy2
    simp only [secx1, secx2, secy1, secy2, unclipped_x2, unclipped_y2]
    split_ifs <;> omega

/-- Evaluation of the unclipped geometry at `pEx`/`rowIn`. -/
theorem unclipped_x1_pEx_rowIn : unclipped_x1 pEx rowIn = 3 := by
  norm_num [unclipped_x1, ratTrunc, roundHalfEven, x_center, slit_pos_x,
    wavelength_central_pixel, spectrum_length, distortion_x, slit_pos_y, corrected_ypos,
    y_center, pEx, rowIn]

/-- `spectrum_width` vanishes for the zero-height slits used here. -/
theorem spectrum_width_pEx_rowIn : spectrum_width pEx rowIn = 0 := by
  norm_num [spectrum_width, roundHalfEven, slit_length, pEx, rowIn]

/-- `y1` at `pEx`/`rowIn`. -/
theorem unclipped_y1_pEx_rowIn : unclipped_y1 pEx rowIn = 5 := by
  unfold unclipped_y1
  rw [spectrum_width_pEx_rowIn]
  norm_num [roundHalfEven, slit_pos_y, corrected_ypos, y_center, pEx, rowIn]

/-- Witness for `C1_clip_invariant` at the in-frame slit `rowIn` of
table `tIn` (unclipped box `[3, 5) x [5, 5)` inside the 10x10 frame). -/
theorem C1_clip_invariant_witness :
    (prepare_mdf_table pEx tIn = .ok (prepare_columns pEx tIn) ∧
      (0:ℤ) ≤ pEx.naxis1 ∧ (0:ℤ) ≤ pEx.naxis2 ∧
      0 ≤ spectrum_length pEx ∧ 0 ≤ spectrum_width pEx rowIn ∧
      unclipped_x1 pEx rowIn ≤ pEx.naxis1 ∧ 0 ≤ unclipped_x2 pEx rowIn ∧
      unclipped_y1 pEx rowIn ≤ pEx.naxis2 ∧ 0 ≤ unclipped_y2 pEx rowIn) ∧
    (0 ≤ secx1 pEx rowIn ∧ secx1 pEx rowIn ≤ secx2 pEx rowIn ∧
      secx2 pEx rowIn ≤ pEx.naxis1 ∧
     0 ≤ secy1 pEx rowIn ∧ secy1 pEx rowIn ≤ secy2 pEx rowIn ∧
      secy2 pEx rowIn ≤ pEx.naxis2) :=
  ⟨⟨prepare_tIn, by norm_num [pEx], by norm_num [pEx],
    by rw [spectrum_length_pEx]; norm_num,
    by rw [spectrum_width_pEx_rowIn],
    by rw [unclipped_x1_pEx_rowIn]; norm_num [pEx],
    by rw [unclipped_x2, unclipped_x1_pEx_rowIn, spectrum_length_pEx]; norm_num,
    by rw [unclipped_y1_pEx_rowIn]; norm_num [pEx],
    by rw [unclipped_y2, unclipped_y1_pEx_rowIn, spectrum_width_pEx_rowIn]; norm_num⟩,
   (C1_clip_invariant pEx tIn (prepare_columns pEx tIn) 0 rowIn prepare_tIn (by decide)
      (by norm_num [pEx]) (by norm_num [pEx])
      (by rw [spectrum_length_pEx]; norm_num)
      (by rw [spectrum_width_pEx_rowIn])
      (by rw [unclipped_x1_pEx_rowIn]; norm_num [pEx])
      (by rw [unclipped_x2, unclipped_x1_pEx_rowIn, spectrum_length_pEx]; norm_num)
      (by rw [unclipped_y1_pEx_rowIn]; norm_num [pEx])
      (by rw [unclipped_y2, unclipped_y1_pEx_rowIn, spectrum_width_pEx_rowIn]; norm_num)).2⟩

/-- C7, counterexample: `prepare_mdf_table` produces `REFPIX1` (and the
other derived columns) only on tables with at most one row or with
every slit left-clipped.  On the ordinary two-row in-frame table `tTwo`
(both rows have unclipped `x1 = 3 ≥ 0`), line 185
(`refpix[x1 < 0] += x1` — a zero-element selection in-place-added with
a length-2 array) raises a numpy broadcast `ValueError` and no columns
are produced at all. -/
theorem C7_counterexample :
    prepare_mdf_table pEx tTwo = .error PrepErr.broadcastErr ∧
    (tableRows tTwo).length = 2 ∧
    ¬(unclipped_x1 pEx rowIn < 0) ∧ (tableRows tTwo)[0]? = some rowIn := by
  have hrows : tableRows tTwo = [rowIn, rowIn] := by decide
  have hx : ¬(unclipped_x1 pEx rowIn < 0) := by
    rw [unclipped_x1_pEx_rowIn]
    norm_num
  refine ⟨?_, by rw [hrows]; rfl, hx, by rw [hrows]; rfl⟩
  show (if (tableRows tTwo).length ≤ 1 ∨ ∀ r ∈ tableRows tTwo, unclipped_x1 pEx r < 0
    then (.ok (prepare_columns pEx tTwo) : Except PrepErr MdfTable)
    else .error .broadcastErr) = .error PrepErr.broadcastErr
  rw [if_neg]
  rintro (h | h)
  · rw [hrows] at h
    simp at h
  · exact hx (h rowIn (by rw [hrows]; exact List.mem_cons_self _ _))

/-- C7 (amended): whenever `prepare_mdf_table` returns at all (at most
one row, or every row left-clipped — otherwise line 185 raises the
broadcast `ValueError`, `C7_counterexample`), each returned row has
`REFPIX1` equal to `wavelength_central_pixel` when the unclipped `x1`
is non-negative and `wavelength_central_pixel + x1` when `x1 < 0` (the
adjustment is made before `x1` is clipped); equivalently `REFPIX1` is
always the pixel position of the nominal central wavelength relative to
the clipped box start, `x1 + wavelength_central_pixel - SECX1`, which
is what makes the wavelength zero-point recoverable after left-edge
clipping. -/
theorem C7_refpix_tracks_left_clip (p : PrepareParams) (t t2 : MdfTable) (i : ℕ)
    (r : SlitRow) (hok : prepare_mdf_table p t = .ok t2)
    (hrow : (tableRows t)[i]? = some r) :
    (colD t2 "REFPIX1")[i]? = some (refpix1 p r) ∧
    refpix1 p r = (if unclipped_x1 p r < 0 then
        wavelength_central_pixel p + (unclipped_x1 p r : ℚ)
      else wavelength_central_pixel p) ∧
    refpix1 p r =
      (unclipped_x1 p r : ℚ) + wavelength_central_pixel p - ((secx1 p r : ℤ) : ℚ) := by
  have ht2 := prepare_mdf_table_ok_inv p t t2 hok
  subst ht2
  refine ⟨?_, rfl, ?_⟩
  · simp [colD_prepare_REFPIX1, List.getElem?_map, hrow]
  · simp only [refpix1, secx1]
    split_ifs with h
    · push_cast
      ring
    · ring

/-- Witness for `C7_refpix_tracks_left_clip` at the left-clipped slit
`rowNeg` (`x1 = -97 < 0`, so `REFPIX1 = wavelength_central_pixel - 97`
while `SECX1 = 0`). -/
theorem C7_refpix_witness :
    (prepare_mdf_table pEx tNeg = .ok (prepare_columns pEx tNeg) ∧
     (tableRows tNeg)[0]? = some rowNeg) ∧
    ((colD (prepare_columns pEx tNeg) "REFPIX1")[0]? = some (refpix1 pEx rowNeg) ∧
     refpix1 pEx rowNeg =
       (unclipped_x1 pEx rowNeg : ℚ) + wavelength_central_pixel pEx -
         ((secx1 pEx rowNeg : ℤ) : ℚ)) :=
  ⟨⟨prepare_tNeg, by decide⟩,
   (C7_refpix_tracks_left_clip pEx tNeg (prepare_columns pEx tNeg) 0 rowNeg prepare_tNeg
     (by decide)).1,
   (C7_refpix_tracks_left_clip pEx tNeg (prepare_columns pEx tNeg) 0 rowNeg prepare_tNeg
     (by decide)).2.2⟩

/-- C4, counterexample: `prepare_mdf_table` does not augment the
caller's table in place.  Line 121 (`mdf_table = table.Table(mdf_table)`)
makes a fresh copy, so the returned table is a different object (heap
index 1, not 0) and the caller's table is left without any of the
derived columns. -/
theorem C4_counterexample :
    prepare_mdf_table_call [tIn] 0 pEx = .ok (1, [tIn, prepare_columns pEx tIn]) ∧
    (1 : ℕ) ≠ 0 ∧
    lookupCol tIn "SECX1" = none := by
  refine ⟨rfl, by decide, by decide⟩

/-- C4 (amended): when `prepare_mdf_table` returns at all (missing raw
columns raise a `KeyError` and ordinary multi-row tables trip the
line-185 broadcast `ValueError`), the returned value is a fresh table —
a copy of the argument augmented with `SECX1, SECX2, SECY1, SECY2,
REFPIX1` — and in every case the caller's table object is not modified
(no caller-visible mutation of the argument). -/
theorem C4_fresh_table (heap : List MdfTable) (ref : ℕ) (p : PrepareParams)
    (t t2 : MdfTable) (h : heap[ref]? = some t)
    (hok : prepare_mdf_table p t = .ok t2) :
    prepare_mdf_table_call heap ref p = .ok (heap.length, heap ++ [t2]) ∧
    heap.length ≠ ref ∧
    (heap ++ [t2])[ref]? = some t ∧
    (heap ++ [t2])[heap.length]? = some (prepare_columns p t) := by
  have hlt : ref < heap.length := by
    by_contra hge
    rw [List.getElem?_eq_none (le_of_not_lt hge)] at h
    exact Option.noConfusion h
  have ht2 := prepare_mdf_table_ok_inv p t t2 hok
  refine ⟨?_, by omega, ?_, ?_⟩
  · unfold prepare_mdf_table_call
    rw [h]
    simp only [Option.getD_some]
    rw [hok]
  · rw [List.getElem?_append, if_pos hlt]
    exact h
  · rw [List.getElem?_append_right (le_refl _), ht2]
    simp

/-- Witness for `C4_fresh_table` on a one-table heap. -/
theorem C4_fresh_table_witness :
    (([tIn] : List MdfTable)[0]? = some tIn ∧
     prepare_mdf_table pEx tIn = .ok (prepare_columns pEx tIn)) ∧
    (prepare_mdf_table_call [tIn] 0 pEx =
       .ok (([tIn] : List MdfTable).length, [tIn] ++ [prepare_columns pEx tIn]) ∧
     ([tIn] : List MdfTable).length ≠ 0 ∧
     ([tIn] ++ [prepare_columns pEx tIn])[0]? = some tIn ∧
     ([tIn] ++ [prepare_columns pEx tIn])[([tIn] : List MdfTable).length]? =
       some (prepare_columns pEx tIn)) :=
  ⟨⟨rfl, prepare_tIn⟩, C4_fresh_table [tIn] 0 pEx tIn (prepare_columns pEx tIn) rfl
    prepare_tIn⟩

/-- C2, counterexample: `cut_slits` does not raise the validation error
for every missing derived column — the precondition check tests only
`SECX1`.  On a table that has `SECX1` but lacks `SECX2`, the call does
not fail with the `ValueError('... has not been prepared')`; it fails
later with a `KeyError` on the multi-column access instead. -/
theorem C2_counterexample :
    lookupCol tOnlyX1 "SECX2" = none ∧
    cut_slits [] tOnlyX1 none none false ≠ .error CutErr.notPrepared ∧
    cut_slits [] tOnlyX1 none none false = .error (CutErr.keyErr "SECX2") := by
  have he : cut_slits [] tOnlyX1 none none false = .error (CutErr.keyErr "SECX2") := rfl
  refine ⟨by decide, ?_, he⟩
  rw [he]
  simp

/-- C2 (amended): `cut_slits` raises the validation error
(`'The supplied table has not been prepared'`) exactly when `SECX1` is
absent; when `SECX1` is present but another derived column is missing it
fails with a different error (a column `KeyError`), and it succeeds
whenever all four derived columns are present. -/
theorem C2_validation_checks_SECX1 (data : List (List ℚ)) (t : MdfTable)
    (u m : Option (List (List ℚ))) (rci : Bool) :
    (cut_slits data t u m rci = .error CutErr.notPrepared ↔ lookupCol t "SECX1" = none) ∧
    ((lookupCol t "SECX1").isSome → (lookupCol t "SECX2").isSome →
      (lookupCol t "SECY1").isSome → (lookupCol t "SECY2").isSome →
      ∃ out, cut_slits data t u m rci = Except.ok out) := by
  unfold cut_slits
  rcases h1 : lookupCol t "SECX1" with _ | c1
  · simp
  · rcases h2 : lookupCol t "SECX2" with _ | c2
    · simp
    · rcases h3 : lookupCol t "SECY1" with _ | c3
      · simp
      · rcases h4 : lookupCol t "SECY2" with _ | c4
        · simp
        · exact ⟨by simp, fun _ _ _ _ => ⟨_, rfl⟩⟩

/-- Witness for `C2_validation_checks_SECX1` on the prepared table
`tPrep`: all four derived columns present, the call succeeds. -/
theorem C2_validation_witness :
    ((lookupCol tPrep "SECX1").isSome ∧ (lookupCol tPrep "SECX2").isSome ∧
     (lookupCol tPrep "SECY1").isSome ∧ (lookupCol tPrep "SECY2").isSome) ∧
    (¬(cut_slits [[5]] tPrep none none false = .error CutErr.notPrepared) ∧
     ∃ out, cut_slits [[5]] tPrep none none false = Except.ok out) :=
  ⟨by decide,
   fun h => by
     have := (C2_validation_checks_SECX1 [[5]] tPrep none none false).1.mp h
     simp [tPrep, lookupCol] at this,
   (C2_validation_checks_SECX1 [[5]] tPrep none none false).2 (by decide) (by decide)
     (by decide) (by decide)⟩

/-- Successful `cut_slits` calls are exactly those on tables carrying
all four derived columns, and the components of the result are the
stamped image (when requested) and the per-slit HDU blocks. -/
theorem cut_slits_ok_inv (data : List (List ℚ)) (t : MdfTable)
    (u m : Option (List (List ℚ))) (rci : Bool)
    (cimg : Option (List (List ℚ))) (bundle : List Hdu)
    (hok : cut_slits data t u m rci = .ok (cimg, bundle)) :
    ∃ c1 c2 c3 c4,
      lookupCol t "SECX1" = some c1 ∧ lookupCol t "SECX2" = some c2 ∧
      lookupCol t "SECY1" = some c3 ∧ lookupCol t "SECY2" = some c4 ∧
      bundle = (((zip4Cols c1 c2 c3 c4).enum.map
        (fun ib => hduBlock data u m ib.1 ib.2)).flatten) ∧
      cimg = (if rci then some ((zip4Cols c1 c2 c3 c4).foldl stampBox data) else none) := by
  unfold cut_slits at hok
  rcases h1 : lookupCol t "SECX1" with _ | c1 <;> rw [h1] at hok
  · exact absurd hok (by simp)
  rcases h2 : lookupCol t "SECX2" with _ | c2 <;> rw [h2] at hok
  · exact absurd hok (by simp)
  rcases h3 : lookupCol t "SECY1" with _ | c3 <;> rw [h3] at hok
  · exact absurd hok (by simp)
  rcases h4 : lookupCol t "SECY2" with _ | c4 <;> rw [h4] at hok
  · exact absurd hok (by simp)
  refine ⟨c1, c2, c3, c4, rfl, rfl, rfl, rfl, ?_, ?_⟩
  · have := (Except.ok.inj hok).symm
    exact congrArg Prod.snd this
  · have := (Except.ok.inj hok).symm
    exact congrArg Prod.fst this

/-- Length of a Python slice at in-range bounds. -/
theorem natSlice_length {α : Type} (l : List α) (a b : ℕ) (hb : b ≤ l.length) :
    (natSlice l a b).length = b - a := by
  simp only [natSlice, List.length_take, List.length_drop]
  exact min_eq_left (by omega)

/-- Elements of a Python slice. -/
theorem natSlice_getElem? {α : Type} (l : List α) (a b i : ℕ) (h : i < b - a) :
    (natSlice l a b)[i]? = l[a + i]? := by
  simp [natSlice, List.getElem?_take, h, List.getElem?_drop]

/-- `getD` version of `natSlice_getElem?`. -/
theorem natSlice_getD {α : Type} (l : List α) (a b i : ℕ) (d : α) (h : i < b - a) :
    (natSlice l a b).getD i d = l.getD (a + i) d := by
  rw [List.getD_eq_getElem?_getD, List.getD_eq_getElem?_getD, natSlice_getElem? l a b i h]

/-- `pyIdx` is plain truncation on a non-negative in-range bound. -/
theorem pyIdx_of_nonneg {len : ℕ} {i : ℤ} (h0 : 0 ≤ i) (hle : i.toNat ≤ len) :
    pyIdx len i = i.toNat := by
  unfold pyIdx
  rw [if_neg (not_lt.mpr h0)]
  exact min_eq_left hle

/-- On non-negative in-range bounds (the scope of claim C3) `pySlice`
is the natural-bound slice. -/
theorem pySlice_eq_natSlice {α : Type} (l : List α) (a b : ℤ) (ha0 : 0 ≤ a)
    (hab : a ≤ b) (hb : b.toNat ≤ l.length) :
    pySlice l a b = natSlice l a.toNat b.toNat := by
  unfold pySlice
  rw [pyIdx_of_nonneg ha0 (by omega), pyIdx_of_nonneg (by omega) hb]

/-- C3: for a successful cut and a table row whose box
`[x1, x2) x [y1, y2)` lies inside the image (`0 ≤ x1 ≤ x2` within every
row, `0 ≤ y1 ≤ y2 ≤ height` — the claim's scope), the bundle contains
the `DATA_i` cutout for that row, its shape is `(y2 - y1, x2 - x1)`,
and its entries are exactly `image[y1 + r][x1 + c]`. -/
theorem C3_roundtrip_exact (data : List (List ℚ)) (t : MdfTable)
    (u m : Option (List (List ℚ))) (rci : Bool)
    (cimg : Option (List (List ℚ))) (bundle : List Hdu)
    (hok : cut_slits data t u m rci = .ok (cimg, bundle))
    (i : ℕ) (x1 x2 y1 y2 : ℤ)
    (hbox : (zip4Cols (colD t "SECX1") (colD t "SECX2") (colD t "SECY1")
      (colD t "SECY2"))[i]? = some (x1, x2, y1, y2))
    (hx0 : 0 ≤ x1) (hx12 : x1 ≤ x2) (hy0 : 0 ≤ y1) (hy12 : y1 ≤ y2)
    (hyb : y2.toNat ≤ data.length)
    (hxb : ∀ row ∈ data, x2.toNat ≤ row.length) :
    (HduKind.data, i, sliceBox data (x1, x2, y1, y2)) ∈ bundle ∧
    (sliceBox data (x1, x2, y1, y2)).length = y2.toNat - y1.toNat ∧
    (∀ r, r < y2.toNat - y1.toNat →
      ((sliceBox data (x1, x2, y1, y2)).getD r []).length = x2.toNat - x1.toNat) ∧
    (∀ r c, r < y2.toNat - y1.toNat → c < x2.toNat - x1.toNat →
      ((sliceBox data (x1, x2, y1, y2)).getD r []).getD c 0 =
        (data.getD (y1.toNat + r) []).getD (x1.toNat + c) 0) := by
  obtain ⟨c1, c2, c3, c4, h1, h2, h3, h4, hb, hc⟩ :=
    cut_slits_ok_inv data t u m rci cimg bundle hok
  have hbox2 : (zip4Cols c1 c2 c3 c4)[i]? = some (x1, x2, y1, y2) := by
    rw [colD, colD, colD, colD, h1, h2, h3, h4] at hbox
    exact hbox
  have hslice : sliceBox data (x1, x2, y1, y2) =
      (natSlice data y1.toNat y2.toNat).map (fun row => pySlice row x1 x2) := by
    unfold sliceBox
    rw [show pySlice data y1 y2 = natSlice data y1.toNat y2.toNat from
      pySlice_eq_natSlice data y1 y2 hy0 hy12 hyb]
  have hrowlen : ∀ r, r < y2.toNat - y1.toNat →
      ∃ row, data[y1.toNat + r]? = some row ∧ row ∈ data := by
    intro r hr
    have hlt : y1.toNat + r < data.length := by omega
    rcases List.getElem?_eq_some_iff.mpr ⟨hlt, rfl⟩ with h
    exact ⟨data[y1.toNat + r], h, List.getElem?_mem h⟩
  refine ⟨?_, ?_, ?_, ?_⟩
  · subst hb
    have henum : (zip4Cols c1 c2 c3 c4).enum[i]? = some (i, (x1, x2, y1, y2)) := by
      rw [List.getElem?_enum, hbox2]
      rfl
    have hmem : hduBlock data u m i (x1, x2, y1, y2) ∈
        (zip4Cols c1 c2 c3 c4).enum.map (fun ib => hduBlock data u m ib.1 ib.2) := by
      refine List.getElem?_mem (n := i) ?_
      rw [List.getElem?_map, henum]
      rfl
    exact List.mem_flatten.mpr ⟨_, hmem, by simp [hduBlock]⟩
  · rw [hslice, List.length_map]
    exact natSlice_length data _ _ hyb
  · intro r hr
    obtain ⟨row, hrowq, hrowmem⟩ := hrowlen r hr
    have hps : pySlice row x1 x2 = natSlice row x1.toNat x2.toNat :=
      pySlice_eq_natSlice row x1 x2 hx0 hx12 (hxb row hrowmem)
    rw [hslice, List.getD_eq_getElem?_getD, List.getElem?_map,
      natSlice_getElem? data _ _ _ hr, hrowq]
    simpa [hps] using natSlice_length row _ _ (hxb row hrowmem)
  · intro r c hr hc2
    obtain ⟨row, hrowq, hrowmem⟩ := hrowlen r hr
    have hps : pySlice row x1 x2 = natSlice row x1.toNat x2.toNat :=
      pySlice_eq_natSlice row x1 x2 hx0 hx12 (hxb row hrowmem)
    have houter : (List.map (fun row => pySlice row x1 x2)
        (natSlice data y1.toNat y2.toNat)).getD r [] = pySlice row x1 x2 := by
      rw [List.getD_eq_getElem?_getD, List.getElem?_map,
        natSlice_getElem? data _ _ _ hr, hrowq]
      rfl
    have hrhs : data.getD (y1.toNat + r) [] = row := by
      rw [List.getD_eq_getElem?_getD, hrowq]
      rfl
    rw [hslice, houter, hps, hrhs]
    exact natSlice_getD row x1.toNat x2.toNat c 0 hc2

/-- Witness for `C3_roundtrip_exact`: cutting the `[0,1) x [0,1)` box of
`tPrep` out of the 2x2 image `[[1,2],[3,4]]`. -/
theorem C3_roundtrip_witness :
    (cut_slits [[1, 2], [3, 4]] tPrep none none false =
       .ok (none, [(HduKind.data, 0, [[1]])]) ∧
     (zip4Cols (colD tPrep "SECX1") (colD tPrep "SECX2") (colD tPrep "SECY1")
       (colD tPrep "SECY2"))[0]? = some (0, 1, 0, 1) ∧
     (0 : ℤ) ≤ 0 ∧ (0 : ℤ) ≤ 1 ∧
     (1 : ℤ).toNat ≤ ([[1, 2], [3, 4]] : List (List ℚ)).length ∧
     (∀ row ∈ ([[1, 2], [3, 4]] : List (List ℚ)), (1 : ℤ).toNat ≤ row.length)) ∧
    ((HduKind.data, 0, sliceBox [[1, 2], [3, 4]] (0, 1, 0, 1)) ∈
       [(HduKind.data, 0, ([[1]] : List (List ℚ)))] ∧
     (sliceBox ([[1, 2], [3, 4]] : List (List ℚ)) (0, 1, 0, 1)).length =
       (1 : ℤ).toNat - (0 : ℤ).toNat) :=
  ⟨⟨rfl, by decide, by decide, by decide, by decide, by decide⟩,
   (C3_roundtrip_exact [[1, 2], [3, 4]] tPrep none none false none
      [(HduKind.data, 0, [[1]])] rfl 0 0 1 0 1 (by decide) (by decide) (by decide)
      (by decide) (by decide) (by decide) (by decide)).1,
   (C3_roundtrip_exact [[1, 2], [3, 4]] tPrep none none false none
      [(HduKind.data, 0, [[1]])] rfl 0 0 1 0 1 (by decide) (by decide) (by decide)
      (by decide) (by decide) (by decide) (by decide)).2.1⟩

/-- Each loop iteration appends exactly `blockSize` HDUs. -/
theorem hduBlock_length (data : List (List ℚ)) (u m : Option (List (List ℚ)))
    (i : ℕ) (b : ℤ × ℤ × ℤ × ℤ) : (hduBlock data u m i b).length = blockSize u m := by
  rcases u with _ | uu <;> rcases m with _ | mm <;> simp [hduBlock, blockSize]

/-- The HDU list over the slits of `boxes` has `boxes.length * blockSize`
entries. -/
theorem blocks_flatten_length (data : List (List ℚ)) (u m : Option (List (List ℚ)))
    (boxes : List (ℤ × ℤ × ℤ × ℤ)) (k : ℕ) :
    (((List.enumFrom k boxes).map (fun ib => hduBlock data u m ib.1 ib.2)).flatten).length =
      boxes.length * blockSize u m := by
  induction boxes generalizing k with
  | nil => simp
  | cons b bs ih =>
    have hbundle : ((List.enumFrom k (b :: bs)).map
        (fun ib => hduBlock data u m ib.1 ib.2)).flatten =
        hduBlock data u m k b ++
          ((List.enumFrom (k + 1) bs).map (fun ib => hduBlock data u m ib.1 ib.2)).flatten :=
      rfl
    rw [hbundle, List.length_append, hduBlock_length, ih (k + 1), List.length_cons]
    ring

/-- Position of each slit's HDUs inside the flattened bundle: slit `i`'s
data HDU sits at offset `i * blockSize`, immediately followed by the
uncertainty HDU when supplied, then the mask HDU when supplied. -/
theorem blocks_flatten_getElem (data : List (List ℚ)) (u m : Option (List (List ℚ)))
    (boxes : List (ℤ × ℤ × ℤ × ℤ)) (k i : ℕ) (b : ℤ × ℤ × ℤ × ℤ)
    (h : boxes[i]? = some b) :
    (((List.enumFrom k boxes).map
        (fun ib => hduBlock data u m ib.1 ib.2)).flatten)[i * blockSize u m]? =
      some (HduKind.data, k + i, sliceBox data b) ∧
    (∀ uu, u = some uu →
      (((List.enumFrom k boxes).map
          (fun ib => hduBlock data u m ib.1 ib.2)).flatten)[i * blockSize u m + 1]? =
        some (HduKind.uncertainty, k + i, sliceBox uu b)) ∧
    (∀ mm, m = some mm →
      (((List.enumFrom k boxes).map
          (fun ib => hduBlock data u m ib.1 ib.2)).flatten)[i * blockSize u m + 1 +
            (if u.isSome then 1 else 0)]? =
        some (HduKind.mask, k + i, sliceBox mm b)) := by
  induction boxes generalizing k i with
  | nil => simp at h
  | cons bx bs ih =>
    have hbundle : ((List.enumFrom k (bx :: bs)).map
        (fun ib => hduBlock data u m ib.1 ib.2)).flatten =
        hduBlock data u m k bx ++
          ((List.enumFrom (k + 1) bs).map (fun ib => hduBlock data u m ib.1 ib.2)).flatten :=
      rfl
    cases i with
    | zero =>
      obtain rfl : bx = b := by simpa using h
      rw [hbundle]
      refine ⟨?_, ?_, ?_⟩
      · rcases u with _ | uu <;> rcases m with _ | mm <;> simp [hduBlock, blockSize]
      · intro uu huu
        subst huu
        rcases m with _ | mm <;> simp [hduBlock, blockSize]
      · intro mm hmm2
        subst hmm2
        rcases u with _ | uu <;> simp [hduBlock, blockSize]
    | succ i =>
      have hbs : bs[i]? = some b := by simpa using h
      have hs : (hduBlock data u m k bx).length = blockSize u m := hduBlock_length data u m k bx
      have key : ∀ off : ℕ,
          ((hduBlock data u m k bx ++
            ((List.enumFrom (k + 1) bs).map
              (fun ib => hduBlock data u m ib.1 ib.2)).flatten))[(i + 1) * blockSize u m + off]? =
          (((List.enumFrom (k + 1) bs).map
              (fun ib => hduBlock data u m ib.1 ib.2)).flatten)[i * blockSize u m + off]? := by
        intro off
        rw [List.getElem?_append, hs, Nat.succ_mul]
        rw [if_neg (by omega)]
        congr 1
        omega
      obtain ⟨ih1, ih2, ih3⟩ := ih (k + 1) i hbs
      rw [hbundle]
      refine ⟨?_, ?_, ?_⟩
      · rw [List.getElem?_append, hs, Nat.succ_mul, if_neg (by omega)]
        have heq : i * blockSize u m + blockSize u m - blockSize u m =
            i * blockSize u m := by omega
        rw [heq, ih1]
        have hk : k + (i + 1) = k + 1 + i := by omega
        rw [hk]
      · intro uu huu
        rw [key 1, ih2 uu huu]
        have hk : k + (i + 1) = k + 1 + i := by omega
        rw [hk]
      · intro mm hmm2
        rw [Nat.add_assoc, key (1 + (if u.isSome then 1 else 0)), ← Nat.add_assoc,
          ih3 mm hmm2]
        have hk : k + (i + 1) = k + 1 + i := by omega
        rw [hk]

/-- C10: for a successful cut over an `n`-row prepared table, the bundle
has `n * (1 + u + m)` HDUs (`u`/`m` are 1 exactly when the uncertainty /
mask plane was supplied), and slit `i`'s block starts at offset
`i * (1 + u + m)` with `DATA_i`, immediately followed by
`UNCERTAINTY_i` exactly when supplied, then `MASK_i` exactly when
supplied. -/
theorem C10_bundle_layout (data : List (List ℚ)) (t : MdfTable)
    (u m : Option (List (List ℚ))) (rci : Bool)
    (cimg : Option (List (List ℚ))) (bundle : List Hdu)
    (hok : cut_slits data t u m rci = .ok (cimg, bundle)) :
    bundle.length =
      (zip4Cols (colD t "SECX1") (colD t "SECX2") (colD t "SECY1") (colD t "SECY2")).length *
        blockSize u m ∧
    ∀ i b, (zip4Cols (colD t "SECX1") (colD t "SECX2") (colD t "SECY1")
        (colD t "SECY2"))[i]? = some b →
      bundle[i * blockSize u m]? = some (HduKind.data, i, sliceBox data b) ∧
      (∀ uu, u = some uu →
        bundle[i * blockSize u m + 1]? = some (HduKind.uncertainty, i, sliceBox uu b)) ∧
      (∀ mm, m = some mm →
        bundle[i * blockSize u m + 1 + (if u.isSome then 1 else 0)]? =
          some (HduKind.mask, i, sliceBox mm b)) := by
  obtain ⟨c1, c2, c3, c4, h1, h2, h3, h4, hb, hc⟩ :=
    cut_slits_ok_inv data t u m rci cimg bundle hok
  have hcol : zip4Cols (colD t "SECX1") (colD t "SECX2") (colD t "SECY1") (colD t "SECY2") =
      zip4Cols c1 c2 c3 c4 := by
    rw [colD, colD, colD, colD, h1, h2, h3, h4]
    rfl
  subst hb
  constructor
  · rw [hcol]
    exact blocks_flatten_length data u m (zip4Cols c1 c2 c3 c4) 0
  · intro i b hbox
    rw [hcol] at hbox
    have := blocks_flatten_getElem data u m (zip4Cols c1 c2 c3 c4) 0 i b hbox
    simpa using this

/-- Witness for `C10_bundle_layout`: a one-slit table with an
uncertainty plane and no mask plane gives a bundle `[DATA_0,
UNCERTAINTY_0]` of length `1 * 2`. -/
theorem C10_bundle_layout_witness :
    (cut_slits [[5]] tPrep (some [[7]]) none false =
      .ok (none, [(HduKind.data, 0, [[5]]), (HduKind.uncertainty, 0, [[7]])])) ∧
    ([(HduKind.data, 0, ([[5]] : List (List ℚ))), (HduKind.uncertainty, 0, [[7]])].length =
      (zip4Cols (colD tPrep "SECX1") (colD tPrep "SECX2") (colD tPrep "SECY1")
        (colD tPrep "SECY2")).length * blockSize (some [[7]]) none) ∧
    ([(HduKind.data, 0, ([[5]] : List (List ℚ))),
        (HduKind.uncertainty, 0, [[7]])][0 * blockSize (some [[7]]) none]? =
      some (HduKind.data, 0, sliceBox [[5]] (0, 1, 0, 1)) ∧
     (∀ uu, (some [[7]] : Option (List (List ℚ))) = some uu →
       [(HduKind.data, 0, ([[5]] : List (List ℚ))),
         (HduKind.uncertainty, 0, [[7]])][0 * blockSize (some [[7]]) none + 1]? =
         some (HduKind.uncertainty, 0, sliceBox uu (0, 1, 0, 1))) ∧
     (∀ mm, (none : Option (List (List ℚ))) = some mm →
       [(HduKind.data, 0, ([[5]] : List (List ℚ))),
         (HduKind.uncertainty, 0, [[7]])][0 * blockSize (some [[7]]) none + 1 +
           (if (some [[7]] : Option (List (List ℚ))).isSome then 1 else 0)]? =
         some (HduKind.mask, 0, sliceBox mm (0, 1, 0, 1)))) :=
  ⟨rfl,
   (C10_bundle_layout [[5]] tPrep (some [[7]]) none false none
     [(HduKind.data, 0, [[5]]), (HduKind.uncertainty, 0, [[7]])] rfl).1,
   (C10_bundle_layout [[5]] tPrep (some [[7]]) none false none
     [(HduKind.data, 0, [[5]]), (HduKind.uncertainty, 0, [[7]])] rfl).2 0 (0, 1, 0, 1)
     (by decide)⟩

/-- Stamping a row segment preserves the row length. -/
theorem stampCols_length (a b : ℕ) (k : ℕ) (row : List ℚ) :
    (stampCols a b k row).length = row.length := by
  induction row generalizing k with
  | nil => rfl
  | cons v rest ih => simp [stampCols, ih]

/-- Pixel values after stamping one row: sentinel inside the normalized
range `[a, b)`, unchanged elsewhere. -/
theorem stampCols_getD (a b : ℕ) (k : ℕ) (row : List ℚ) (c : ℕ) (hc : c < row.length) :
    (stampCols a b k row).getD c 0 =
      if a ≤ k + c ∧ k + c < b then -1000 else row.getD c 0 := by
  induction row generalizing k c with
  | nil => simp at hc
  | cons v rest ih =>
    cases c with
    | zero => simp [stampCols]
    | succ c =>
      have h2 : c < rest.length := by simpa using hc
      simp only [stampCols, List.getD_cons_succ]
      rw [ih (k + 1) c h2, show k + 1 + c = k + (c + 1) from by omega]

/-- Stamping a box preserves the number of rows. -/
theorem stampRows_length (x1 x2 : ℤ) (ys ye : ℕ) (k : ℕ) (img : List (List ℚ)) :
    (stampRows x1 x2 ys ye k img).length = img.length := by
  induction img generalizing k with
  | nil => rfl
  | cons row rest ih => simp [stampRows, ih]

/-- Rows after stamping a box: rows in the normalized range `[ys, ye)`
are column-stamped (with the column bounds normalized against that
row's length), others unchanged. -/
theorem stampRows_getD (x1 x2 : ℤ) (ys ye : ℕ) (k : ℕ) (img : List (List ℚ)) (r : ℕ)
    (hr : r < img.length) :
    (stampRows x1 x2 ys ye k img).getD r [] =
      if ys ≤ k + r ∧ k + r < ye then
        stampCols (pyIdx (img.getD r []).length x1) (pyIdx (img.getD r []).length x2) 0
          (img.getD r [])
      else img.getD r [] := by
  induction img generalizing k r with
  | nil => simp at hr
  | cons row rest ih =>
    cases r with
    | zero => simp [stampRows]
    | succ r =>
      have h2 : r < rest.length := by simpa using hr
      simp only [stampRows, List.getD_cons_succ]
      rw [ih (k + 1) r h2, show k + 1 + r = k + (r + 1) from by omega]

/-- `stampBox` preserves the number of rows. -/
theorem stampBox_length (img : List (List ℚ)) (b : ℤ × ℤ × ℤ × ℤ) :
    (stampBox img b).length = img.length :=
  stampRows_length b.1 b.2.1 _ _ 0 img

/-- `stampBox` preserves every row length. -/
theorem stampBox_row_length (img : List (List ℚ)) (b : ℤ × ℤ × ℤ × ℤ) (r : ℕ) :
    ((stampBox img b).getD r []).length = (img.getD r []).length := by
  by_cases hr : r < img.length
  · show ((stampRows b.1 b.2.1 (pyIdx img.length b.2.2.1) (pyIdx img.length b.2.2.2)
      0 img).getD r []).length = _
    rw [stampRows_getD _ _ _ _ _ _ _ hr]
    split_ifs
    · exact stampCols_length _ _ _ _
    · rfl
  · have h1 : img.length ≤ r := le_of_not_lt hr
    have h2 : (stampBox img b).length ≤ r := by rw [stampBox_length]; exact h1
    rw [List.getD_eq_default _ _ h1, List.getD_eq_default _ _ h2]

/-- Pixel values after stamping one box: sentinel exactly on the pixels
of the Python-normalized box. -/
theorem stampBox_getD (img : List (List ℚ)) (b : ℤ × ℤ × ℤ × ℤ) (r c : ℕ)
    (hr : r < img.length) (hc : c < (img.getD r []).length) :
    ((stampBox img b).getD r []).getD c 0 =
      if inBoxPy img.length (img.getD r []).length b r c then -1000
      else (img.getD r []).getD c 0 := by
  show ((stampRows b.1 b.2.1 (pyIdx img.length b.2.2.1) (pyIdx img.length b.2.2.2)
    0 img).getD r []).getD c 0 = _
  rw [stampRows_getD _ _ _ _ _ _ _ hr]
  by_cases hrow : pyIdx img.length b.2.2.1 ≤ r ∧ r < pyIdx img.length b.2.2.2
  · rw [if_pos (by simpa using hrow), stampCols_getD _ _ _ _ _ hc]
    by_cases hcol : pyIdx (img.getD r []).length b.1 ≤ c ∧
        c < pyIdx (img.getD r []).length b.2.1
    · rw [if_pos (by simpa using hcol), if_pos ⟨hrow.1, hrow.2, hcol.1, hcol.2⟩]
    · rw [if_neg (by simpa using hcol),
        if_neg (fun hin => hcol ⟨hin.2.2.1, hin.2.2.2⟩)]
  · rw [if_neg (by simpa using hrow),
      if_neg (fun hin => hrow ⟨hin.1, hin.2.1⟩)]

/-- The stamping loop preserves the number of rows. -/
theorem foldl_stampBox_length (boxes : List (ℤ × ℤ × ℤ × ℤ)) (img : List (List ℚ)) :
    (boxes.foldl stampBox img).length = img.length := by
  induction boxes generalizing img with
  | nil => rfl
  | cons b bs ih => rw [List.foldl_cons, ih, stampBox_length]

/-- The stamping loop preserves every row length. -/
theorem foldl_stampBox_row_length (boxes : List (ℤ × ℤ × ℤ × ℤ)) (img : List (List ℚ))
    (r : ℕ) : ((boxes.foldl stampBox img).getD r []).length = (img.getD r []).length := by
  induction boxes generalizing img with
  | nil => rfl
  | cons b bs ih => rw [List.foldl_cons, ih, stampBox_row_length]

/-- Pixel values after the whole stamping loop: sentinel inside the
union of the Python-normalized boxes, unchanged elsewhere. -/
theorem foldl_stampBox_getD (boxes : List (ℤ × ℤ × ℤ × ℤ)) (img : List (List ℚ))
    (r c : ℕ) (hr : r < img.length) (hc : c < (img.getD r []).length) :
    ((boxes.foldl stampBox img).getD r []).getD c 0 =
      if ∃ b ∈ boxes, inBoxPy img.length (img.getD r []).length b r c then -1000
      else (img.getD r []).getD c 0 := by
  induction boxes generalizing img with
  | nil => simp
  | cons b bs ih =>
    have hr2 : r < (stampBox img b).length := by rw [stampBox_length]; exact hr
    have hc2 : c < ((stampBox img b).getD r []).length := by
      rw [stampBox_row_length]; exact hc
    have hL : (stampBox img b).length = img.length := stampBox_length _ _
    have hR : ((stampBox img b).getD r []).length = (img.getD r []).length :=
      stampBox_row_length _ _ _
    rw [List.foldl_cons, ih (stampBox img b) hr2 hc2, hL, hR,
      stampBox_getD img b r c hr hc]
    by_cases hb : inBoxPy img.length (img.getD r []).length b r c
    · rw [if_pos hb, if_pos (⟨b, List.mem_cons_self b bs, hb⟩ :
        ∃ bb ∈ b :: bs, inBoxPy img.length (img.getD r []).length bb r c)]
      split_ifs <;> rfl
    · rw [if_neg hb]
      by_cases hbs : ∃ bb ∈ bs, inBoxPy img.length (img.getD r []).length bb r c
      · obtain ⟨bb, hmem, hin⟩ := hbs
        rw [if_pos ⟨bb, hmem, hin⟩, if_pos ⟨bb, List.mem_cons_of_mem _ hmem, hin⟩]
      · rw [if_neg hbs, if_neg (by
          rintro ⟨bb, hmem, hin⟩
          rcases List.mem_cons.mp hmem with hh | hh
          · exact hb (hh ▸ hin)
          · exact hbs ⟨bb, hh, hin⟩)]

/-- C6, counterexample: the annotated image can differ from the input
outside the union of the table's bounding boxes.  `tNegBox` carries the
box `[0, -2) x [0, 1)` — an empty box on the claim's reading, and a
negative `SECX2` is reachable because lines 186-190 clip only the left
side of `x1` and the right side of `x2`, never the other sides.
Python slicing wraps the `-2` against the row length 4, so
`cut_image[0:1, 0:-2] = -1000` stamps columns `[0, 2)` and pixel
`(0, 0)` is altered even though it lies in no box. -/
theorem C6_counterexample :
    cut_slits [[1, 2, 3, 4]] tNegBox none none true =
      .ok (some [[-1000, -1000, 3, 4]], [(HduKind.data, 0, [[1, 2]])]) ∧
    zip4Cols (colD tNegBox "SECX1") (colD tNegBox "SECX2") (colD tNegBox "SECY1")
      (colD tNegBox "SECY2") = [(0, -2, 0, 1)] ∧
    ¬inBox (0, -2, 0, 1) 0 0 ∧
    (([[-1000, -1000, 3, 4]] : List (List ℚ)).getD 0 []).getD 0 0 ≠
      (([[1, 2, 3, 4]] : List (List ℚ)).getD 0 []).getD 0 0 := by
  refine ⟨rfl, by decide, by decide, by decide⟩

/-- C6 (amended): with `return_cut_image=True`, the annotated image
returned by `cut_slits` has the shape of the input and holds the
sentinel `-1000` exactly on the pixels inside the union of the table's
boxes as Python/numpy slicing realizes them — each bound normalized
against the image dimensions, negative bounds wrapping
(`C6_counterexample`: for boxes with negative upper bounds this stamped
set is not the claimed set-theoretic box union); the annotated image
matches the input everywhere else.  The input image itself is
untouched: the source stamps only `cut_image = data.copy()`, which this
pure embedding reflects by building the annotated image as a function
of the input. -/
theorem C6_annotated_copy (data : List (List ℚ)) (t : MdfTable)
    (u m : Option (List (List ℚ))) (cimg : Option (List (List ℚ))) (bundle : List Hdu)
    (hok : cut_slits data t u m true = .ok (cimg, bundle)) :
    ∃ A, cimg = some A ∧
      A.length = data.length ∧
      (∀ r, (A.getD r []).length = (data.getD r []).length) ∧
      (∀ r c, r < data.length → c < (data.getD r []).length →
        ((∃ b ∈ zip4Cols (colD t "SECX1") (colD t "SECX2") (colD t "SECY1")
            (colD t "SECY2"), inBoxPy data.length (data.getD r []).length b r c) →
          (A.getD r []).getD c 0 = -1000) ∧
        ((¬∃ b ∈ zip4Cols (colD t "SECX1") (colD t "SECX2") (colD t "SECY1")
            (colD t "SECY2"), inBoxPy data.length (data.getD r []).length b r c) →
          (A.getD r []).getD c 0 = (data.getD r []).getD c 0)) := by
  obtain ⟨c1, c2, c3, c4, h1, h2, h3, h4, hb, hc⟩ :=
    cut_slits_ok_inv data t u m true cimg bundle hok
  have hcol : zip4Cols (colD t "SECX1") (colD t "SECX2") (colD t "SECY1") (colD t "SECY2") =
      zip4Cols c1 c2 c3 c4 := by
    rw [colD, colD, colD, colD, h1, h2, h3, h4]
    rfl
  refine ⟨(zip4Cols c1 c2 c3 c4).foldl stampBox data, by rw [hc]; rfl, ?_, ?_, ?_⟩
  · exact foldl_stampBox_length _ _
  · exact foldl_stampBox_row_length _ _
  · intro r c hr hc2
    rw [hcol]
    constructor
    · intro hex
      rw [foldl_stampBox_getD _ _ _ _ hr hc2, if_pos hex]
    · intro hnex
      rw [foldl_stampBox_getD _ _ _ _ hr hc2, if_neg hnex]

/-- Witness for `C6_annotated_copy`: stamping the `[0,1) x [0,1)` box of
`tPrep` into `[[1,2],[3,4]]`. -/
theorem C6_annotated_copy_witness :
    (cut_slits [[1, 2], [3, 4]] tPrep none none true =
      .ok (some [[-1000, 2], [3, 4]], [(HduKind.data, 0, [[1]])])) ∧
    (∃ A, (some ([[-1000, 2], [3, 4]] : List (List ℚ))) = some A ∧
      A.length = ([[1, 2], [3, 4]] : List (List ℚ)).length ∧
      (∀ r, (A.getD r []).length = (([[1, 2], [3, 4]] : List (List ℚ)).getD r []).length) ∧
      (∀ r c, r < ([[1, 2], [3, 4]] : List (List ℚ)).length →
        c < (([[1, 2], [3, 4]] : List (List ℚ)).getD r []).length →
        ((∃ b ∈ zip4Cols (colD tPrep "SECX1") (colD tPrep "SECX2") (colD tPrep "SECY1")
            (colD tPrep "SECY2"),
            inBoxPy ([[1, 2], [3, 4]] : List (List ℚ)).length
              (([[1, 2], [3, 4]] : List (List ℚ)).getD r []).length b r c) →
          (A.getD r []).getD c 0 = -1000) ∧
        ((¬∃ b ∈ zip4Cols (colD tPrep "SECX1") (colD tPrep "SECX2") (colD tPrep "SECY1")
            (colD tPrep "SECY2"),
            inBoxPy ([[1, 2], [3, 4]] : List (List ℚ)).length
              (([[1, 2], [3, 4]] : List (List ℚ)).getD r []).length b r c) →
          (A.getD r []).getD c 0 =
            (([[1, 2], [3, 4]] : List (List ℚ)).getD r []).getD c 0))) :=
  ⟨rfl, C6_annotated_copy [[1, 2], [3, 4]] tPrep none none
    (some [[-1000, 2], [3, 4]]) [(HduKind.data, 0, [[1]])] rfl⟩

/-- Head of a nonempty arithmetic range. -/
theorem range'_headD (a n : ℕ) (h : 1 ≤ n) : (List.range' a n).headD 0 = a := by
  cases n with
  | zero => omega
  | succ n => rw [List.range'_succ]; rfl

/-- Indexing past the head of a cons list. -/
theorem getD_cons_shift (b : Bool) (rest : List Bool) (m : ℕ) (h : 1 ≤ m) :
    (b :: rest).getD m false = rest.getD (m - 1) false := by
  cases m with
  | zero => omega
  | succ m => rw [List.getD_cons_succ]; rfl

/-- When the mask starts with `true` at position `i`, the first run
produced starts at `i`. -/
theorem groupRunsAux_cons_true (i : ℕ) (rest2 : List Bool) :
    ∃ js rs, groupRunsAux i (true :: rest2) = (i :: js) :: rs := by
  simp only [groupRunsAux, if_true]
  rcases hr2 : groupRunsAux (i + 1) rest2 with _ | ⟨run1, rs2⟩
  · exact ⟨[], [], rfl⟩
  · rcases run1 with _ | ⟨j, js⟩
    · exact ⟨[], [] :: rs2, rfl⟩
    · by_cases hj : j = i + 1
      · subst hj
        exact ⟨(i + 1) :: js, rs2, by simp⟩
      · exact ⟨[], (j :: js) :: rs2, by simp [hj]⟩

/-- Structural invariant of the `groupby` run extraction: every run
produced by `groupRunsAux i l` is a nonempty block `range' a n` of
consecutive positions in `[i, i + l.length)` whose positions are all
`true` in the mask (indexed relative to `i`) and which cannot be
extended on either side; and the runs are ordered, each starting past
the end of the previous one. -/
theorem groupRunsAux_full (l : List Bool) : ∀ i : ℕ,
    (∀ run ∈ groupRunsAux i l, ∃ a n, run = List.range' a n ∧ 1 ≤ n ∧ i ≤ a ∧
      a + n ≤ i + l.length ∧
      (∀ j, a ≤ j → j < a + n → l.getD (j - i) false = true) ∧
      (a = i ∨ l.getD (a - 1 - i) false = false) ∧
      l.getD (a + n - i) false = false) ∧
    List.Pairwise (fun r s : List ℕ => r.headD 0 + r.length ≤ s.headD 0)
      (groupRunsAux i l) := by
  induction l with
  | nil =>
    intro i
    refine ⟨fun run h => absurd h (by simp [groupRunsAux]), by simp [groupRunsAux]⟩
  | cons b rest ih =>
    intro i
    obtain ⟨ihs, ihp⟩ := ih (i + 1)
    have shift : ∀ a n : ℕ, (1 ≤ n ∧ i + 1 ≤ a ∧ a + n ≤ i + 1 + rest.length ∧
        (∀ j, a ≤ j → j < a + n → rest.getD (j - (i + 1)) false = true) ∧
        (a = i + 1 ∨ rest.getD (a - 1 - (i + 1)) false = false) ∧
        rest.getD (a + n - (i + 1)) false = false) →
        (b = false ∨ a ≠ i + 1) →
        (1 ≤ n ∧ i ≤ a ∧ a + n ≤ i + (b :: rest).length ∧
        (∀ j, a ≤ j → j < a + n → (b :: rest).getD (j - i) false = true) ∧
        (a = i ∨ (b :: rest).getD (a - 1 - i) false = false) ∧
        (b :: rest).getD (a + n - i) false = false) := by
      rintro a n ⟨h1, h2, h3, h4, h5, h6⟩ hside
      refine ⟨h1, by omega, by simp only [List.length_cons]; omega, ?_, ?_, ?_⟩
      · intro j hj1 hj2
        rw [getD_cons_shift _ _ _ (by omega)]
        have hidx : j - i - 1 = j - (i + 1) := by omega
        rw [hidx]
        exact h4 j hj1 hj2
      · by_cases ha : a = i + 1
        · rcases hside with hside | hside
          · right
            have hidx : a - 1 - i = 0 := by omega
            rw [hidx, List.getD_cons_zero, hside]
          · exact absurd ha hside
        · rcases h5 with h5 | h5
          · exact absurd h5 ha
          · right
            rw [getD_cons_shift _ _ _ (by omega)]
            have hidx : a - 1 - i - 1 = a - 1 - (i + 1) := by omega
            rw [hidx]
            exact h5
      · rw [getD_cons_shift _ _ _ (by omega)]
        have hidx : a + n - i - 1 = a + n - (i + 1) := by omega
        rw [hidx]
        exact h6
    by_cases hb : b
    · subst hb
      rcases hr : groupRunsAux (i + 1) rest with _ | ⟨first, rs⟩
      · -- no runs to the right: result is the singleton run `[i]`
        have hrest0 : rest.getD 0 false = false := by
          cases rest with
          | nil => rfl
          | cons c rest2 =>
            rw [List.getD_cons_zero]
            by_contra hc
            have hc2 : c = true := by simpa using hc
            subst hc2
            obtain ⟨js, rs, hcons⟩ := groupRunsAux_cons_true (i + 1) rest2
            rw [hr] at hcons
            exact List.noConfusion hcons
        have hres : groupRunsAux i (true :: rest) = [[i]] := by
          simp only [groupRunsAux, if_true]
          rw [hr]
        rw [hres]
        constructor
        · intro run hrun
          rcases List.mem_singleton.mp hrun with rfl
          refine ⟨i, 1, by simp [List.range'_succ], le_refl 1, le_refl i,
            by simp only [List.length_cons]; omega, ?_, Or.inl rfl, ?_⟩
          · intro j hj1 hj2
            have hji : j = i := by omega
            subst hji
            simp
          · have hidx : i + 1 - i = 1 := by omega
            rw [hidx, List.getD_cons_succ]
            exact hrest0
        · simp
      · -- the first run of the tail exists
        have hfirstmem : first ∈ groupRunsAux (i + 1) rest := by rw [hr]; simp
        obtain ⟨a1, n1, hshape1, hn1, ha1, hrange1, htrue1, hleft1, hright1⟩ :=
          ihs first hfirstmem
        have hfirsthead : first.headD 0 = a1 := by rw [hshape1]; exact range'_headD a1 n1 hn1
        have hfirstlen : first.length = n1 := by rw [hshape1]; exact List.length_range' _ _ _
        have hrsge : ∀ s ∈ rs, a1 + n1 ≤ s.headD 0 := by
          intro s hs
          have := (List.pairwise_cons.mp (hr ▸ ihp)).1 s hs
          rw [hfirsthead, hfirstlen] at this
          exact this
        have hrshead : ∀ s ∈ rs, ∃ as ns, s = List.range' as ns ∧ 1 ≤ ns ∧
            s.headD 0 = as := by
          intro s hs
          obtain ⟨as, ns, hsh, hns, _⟩ := ihs s (by rw [hr]; exact List.mem_cons_of_mem _ hs)
          exact ⟨as, ns, hsh, hns, by rw [hsh]; exact range'_headD as ns hns⟩
        have hfirstcons : ∃ js, first = a1 :: js := by
          cases n1 with
          | zero => omega
          | succ n2 => exact ⟨List.range' (a1 + 1) n2, by rw [hshape1, List.range'_succ]⟩
        obtain ⟨js, hjs⟩ := hfirstcons
        by_cases hj : a1 = i + 1
        · -- merge: the head run is extended downward with `i`
          have hres : groupRunsAux i (true :: rest) = (i :: a1 :: js) :: rs := by
            simp only [groupRunsAux, if_true]
            rw [hr, hjs]
            simp [hj]
          rw [hres]
          constructor
          · intro run hrun
            rcases List.mem_cons.mp hrun with rfl | hrun2
            · refine ⟨i, n1 + 1, ?_, by omega, le_refl i,
                by simp only [List.length_cons]; omega, ?_, Or.inl rfl, ?_⟩
              · rw [List.range'_succ, ← hj, ← hjs, hshape1]
              · intro j hj1 hj2
                rcases Nat.eq_or_lt_of_le hj1 with rfl | hj3
                · simp
                · rw [getD_cons_shift _ _ _ (by omega)]
                  have hidx : j - i - 1 = j - (i + 1) := by omega
                  rw [hidx]
                  exact htrue1 j (by omega) (by omega)
              · rw [getD_cons_shift _ _ _ (by omega)]
                have hidx : i + (n1 + 1) - i - 1 = a1 + n1 - (i + 1) := by omega
                rw [hidx]
                exact hright1
            · obtain ⟨as, ns, hsh, hns, hge, hrange, htrue2, hleft2, hright2⟩ :=
                ihs run (by rw [hr]; exact List.mem_cons_of_mem _ hrun2)
              have hshead : run.headD 0 = as := by rw [hsh]; exact range'_headD as ns hns
              have hasge : a1 + n1 ≤ as := by rw [← hshead]; exact hrsge run hrun2
              exact ⟨as, ns, hsh, shift as ns ⟨hns, hge, hrange, htrue2, hleft2, hright2⟩
                (Or.inr (by omega))⟩
          · rw [hr] at ihp
            have hpc := List.pairwise_cons.mp ihp
            refine List.pairwise_cons.mpr ⟨?_, hpc.2⟩
            intro s hs
            have := hpc.1 s hs
            rw [hfirsthead, hfirstlen] at this
            simp only [List.headD_cons, List.length_cons]
            rw [hjs] at hfirstlen
            simp only [List.length_cons] at hfirstlen
            omega
        · -- no merge: a fresh singleton run `[i]` is prepended
          have hres : groupRunsAux i (true :: rest) = [i] :: (a1 :: js) :: rs := by
            simp only [groupRunsAux, if_true]
            rw [hr, hjs]
            simp [hj]
          have hrest0 : rest.getD 0 false = false := by
            cases rest with
            | nil => rfl
            | cons c rest2 =>
              rw [List.getD_cons_zero]
              by_contra hc
              have hc2 : c = true := by simpa using hc
              subst hc2
              obtain ⟨js2, rs2, hcons⟩ := groupRunsAux_cons_true (i + 1) rest2
              rw [hr] at hcons
              have : first = (i + 1) :: js2 := (List.cons.inj hcons).1
              rw [this] at hfirsthead
              simp at hfirsthead
              exact hj (by omega)
          rw [hres]
          constructor
          · intro run hrun
            rcases List.mem_cons.mp hrun with rfl | hrun2
            · refine ⟨i, 1, by simp [List.range'_succ], le_refl 1, le_refl i,
                by simp only [List.length_cons]; omega, ?_, Or.inl rfl, ?_⟩
              · intro j hj1 hj2
                have hji : j = i := by omega
                subst hji
                simp
              · have hidx : i + 1 - i = 1 := by omega
                rw [hidx, List.getD_cons_succ]
                exact hrest0
            · have hmem2 : run ∈ groupRunsAux (i + 1) rest := by
                rw [hr, hjs]
                exact hrun2
              obtain ⟨as, ns, hsh, hns, hge, hrange, htrue2, hleft2, hright2⟩ := ihs run hmem2
              have hshead : run.headD 0 = as := by rw [hsh]; exact range'_headD as ns hns
              have hasne : as ≠ i + 1 := by
                rcases List.mem_cons.mp hrun2 with rfl | hrun3
                · rw [← hjs] at hsh
                  rw [← hjs] at hshead  
                  rw [hfirsthead] at hshead
                  omega
                · have := hrsge run hrun3
                  rw [hshead] at this
                  omega
              refine ⟨as, ns, hsh, shift as ns ⟨hns, hge, hrange, htrue2, hleft2, hright2⟩
                (Or.inr hasne)⟩
          · refine List.pairwise_cons.mpr ⟨?_, by rw [← hjs, ← hr]; exact ihp⟩
            intro s hs
            simp only [List.headD_cons, List.length_cons, List.length_nil]
            rcases List.mem_cons.mp hs with rfl | hs2
            · simp only [List.headD_cons]
              omega
            · obtain ⟨as, ns, hsh, hns, hshead⟩ := hrshead s hs2
              have := hrsge s hs2
              rw [hshead] at this ⊢
              omega
    · -- `b = false`: the head contributes nothing
      have hbf : b = false := by simpa using hb
      subst hbf
      have hres : groupRunsAux i (false :: rest) = groupRunsAux (i + 1) rest := by
        simp [groupRunsAux]
      rw [hres]
      refine ⟨?_, ihp⟩
      intro run hrun
      obtain ⟨as, ns, hsh, hns, hge, hrange, htrue2, hleft2, hright2⟩ := ihs run hrun
      exact ⟨as, ns, hsh, shift as ns ⟨hns, hge, hrange, htrue2, hleft2, hright2⟩
        (Or.inl rfl)⟩

/-- Global form of the run invariant: runs of `groupRuns` are maximal
`true` blocks, ordered with each run starting past the previous end. -/
theorem groupRuns_spec (mask : List Bool) :
    (∀ run ∈ groupRuns mask, ∃ a n, run = List.range' a n ∧ isMaxRun mask a n) ∧
    List.Pairwise (fun r s : List ℕ => r.headD 0 + r.length ≤ s.headD 0)
      (groupRuns mask) := by
  obtain ⟨hs, hp⟩ := groupRunsAux_full mask 0
  refine ⟨?_, hp⟩
  intro run h
  obtain ⟨a, n, hsh, hn, _, hrange, htrue, hleft, hright⟩ := hs run h
  refine ⟨a, n, hsh, hn, by simpa using hrange, ?_, ?_, by simpa using hright⟩
  · intro j hj1 hj2
    simpa using htrue j hj1 hj2
  · simpa using hleft

/-- A mask with no `true` position produces no runs. -/
theorem groupRuns_eq_nil (mask : List Bool) (h : ∀ j, mask.getD j false = false) :
    groupRuns mask = [] := by
  rcases hg : groupRuns mask with _ | ⟨r, rs⟩
  · rfl
  · exfalso
    have hr : r ∈ groupRuns mask := by rw [hg]; exact List.mem_cons_self _ _
    obtain ⟨a, n, hsh, hmax⟩ := (groupRuns_spec mask).1 r hr
    have htrue := hmax.2.2.1 a (le_refl a) (by have := hmax.1; omega)
    rw [h a] at htrue
    exact Bool.noConfusion htrue

/-- `getD` of an all-`false` list is `false`. -/
theorem getD_false_of_all_false (l : List Bool) (h : ∀ b ∈ l, b = false) (j : ℕ) :
    l.getD j false = false := by
  rcases hlt : l[j]? with _ | b
  · rw [List.getD_eq_getElem?_getD, hlt]
    rfl
  · rw [List.getD_eq_getElem?_getD, hlt]
    exact h b (List.getElem?_mem hlt)

/-- `c && f x` over an all-`false` candidate mask is all-`false`. -/
theorem zipWith_and_all_false (cl : List Bool) (xs : List ℝ) (f : ℝ → Bool)
    (hc : ∀ c ∈ cl, c = false) :
    ∀ b ∈ List.zipWith (fun c x => c && f x) cl xs, b = false := by
  induction cl generalizing xs with
  | nil => simp
  | cons c cs ih =>
    cases xs with
    | nil => simp
    | cons x xs2 =>
      intro b hb
      rcases List.mem_cons.mp hb with rfl | hb2
      · rw [hc c (List.mem_cons_self _ _)]
        rfl
      · exact ih xs2 (fun c2 h2 => hc c2 (List.mem_cons_of_mem _ h2)) b hb2

/-- Successful `find_mask_edges` results are the candidate masks and the
per-group smoothed-weight centroids. -/
theorem find_mask_edges_ok_inv (img : List (List ℝ)) (σ sig : ℚ) (iters : ℕ)
    (pm tm : List Bool) (low upp : List ℝ)
    (hok : find_mask_edges img σ sig iters = .ok (pm, tm, low, upp)) :
    pm = peak_mask img σ sig iters ∧ tm = trough_mask img σ sig iters ∧
    low = (lower_groups img σ sig iters).map (runCentroid (gradient_profile img σ)) ∧
    upp = (upper_groups img σ sig iters).map (runCentroid (gradient_profile img σ)) := by
  unfold find_mask_edges at hok
  split_ifs at hok
  have h := Except.ok.inj hok
  simp only [Prod.mk.injEq] at h
  exact ⟨h.1.symm, h.2.1.symm, h.2.2.1.symm, h.2.2.2.symm⟩

/-- C9: the reported lower/upper edge sequences are exactly the centroid
images of the surviving run lists, and those runs appear in strictly
increasing order of their first row index. -/
theorem C9_edges_in_run_order (img : List (List ℝ)) (σ sig : ℚ) (iters : ℕ)
    (pm tm : List Bool) (low upp : List ℝ)
    (hok : find_mask_edges img σ sig iters = .ok (pm, tm, low, upp)) :
    low = (lower_groups img σ sig iters).map (runCentroid (gradient_profile img σ)) ∧
    upp = (upper_groups img σ sig iters).map (runCentroid (gradient_profile img σ)) ∧
    List.Pairwise (fun r s : List ℕ => r.headD 0 < s.headD 0)
      (lower_groups img σ sig iters) ∧
    List.Pairwise (fun r s : List ℕ => r.headD 0 < s.headD 0)
      (upper_groups img σ sig iters) := by
  obtain ⟨h1, h2, h3, h4⟩ := find_mask_edges_ok_inv img σ sig iters pm tm low upp hok
  have horder : ∀ mask : List Bool,
      List.Pairwise (fun r s : List ℕ => r.headD 0 < s.headD 0)
        ((groupRuns mask).filter (fun g => g.length != 1)) := by
    intro mask
    obtain ⟨hs, hp⟩ := groupRuns_spec mask
    have hsubl : ((groupRuns mask).filter (fun g => g.length != 1)).Sublist
        (groupRuns mask) := List.filter_sublist _
    have hsub := List.Pairwise.sublist hsubl hp
    refine hsub.imp_of_mem ?_
    intro r s hr hs2 hrel
    have hrmem : r ∈ groupRuns mask := List.mem_of_mem_filter hr
    obtain ⟨a, n, hsh, hmax⟩ := hs r hrmem
    have hlen : r.length = n := by rw [hsh]; exact List.length_range' _ _ _
    have hn := hmax.1
    omega
  exact ⟨h3, h4, horder _, horder _⟩

/-- C8: on an empty image, and on any image whose (smoothed) gradient
profile has no sigma-clipping outliers, `find_mask_edges` returns empty
lower- and upper-edge sequences without reaching the error case. -/
theorem C8_degenerate_inputs (σ sig : ℚ) (iters : ℕ) :
    find_mask_edges [] σ sig iters = .ok ([], [], [], []) ∧
    (∀ img : List (List ℝ), (∀ c ∈ clippedCandidates img σ sig iters, c = false) →
      ∃ pm tm, find_mask_edges img σ sig iters = .ok (pm, tm, [], [])) := by
  constructor
  · have hprof : gradient_profile [] σ = [] := rfl
    have hstep : keptStep ([] : List ℝ) sig [] = [] := rfl
    have hkeep : sigmaClipKeep ([] : List ℝ) sig iters = [] := by
      unfold sigmaClipKeep
      simpa using Function.iterate_fixed hstep iters
    have hcc : clippedCandidates [] σ sig iters = [] := by
      unfold clippedCandidates
      rw [hprof, hkeep]
      rfl
    have hpm : peak_mask [] σ sig iters = [] := by
      unfold peak_mask
      rw [hcc]
      rfl
    have htm : trough_mask [] σ sig iters = [] := by
      unfold trough_mask
      rw [hcc]
      rfl
    have hlg : lower_groups [] σ sig iters = [] := by
      unfold lower_groups
      rw [hpm]
      rfl
    have hug : upper_groups [] σ sig iters = [] := by
      unfold upper_groups
      rw [htm]
      rfl
    unfold find_mask_edges
    rw [hlg, hug, hpm, htm]
    simp
  · intro img hall
    have hpm0 : ∀ b ∈ peak_mask img σ sig iters, b = false := by
      unfold peak_mask
      exact zipWith_and_all_false _ _ _ hall
    have htm0 : ∀ b ∈ trough_mask img σ sig iters, b = false := by
      unfold trough_mask
      exact zipWith_and_all_false _ _ _ hall
    have hlg : lower_groups img σ sig iters = [] := by
      unfold lower_groups
      rw [groupRuns_eq_nil _ (getD_false_of_all_false _ hpm0)]
      rfl
    have hug : upper_groups img σ sig iters = [] := by
      unfold upper_groups
      rw [groupRuns_eq_nil _ (getD_false_of_all_false _ htm0)]
      rfl
    refine ⟨peak_mask img σ sig iters, trough_mask img σ sig iters, ?_⟩
    unfold find_mask_edges
    rw [hlg, hug]
    simp

/-- C5 (amended): every reported edge position comes from a maximal run
of at least two consecutive candidate row indices, and equals the
average of the run's row indices weighted by the *smoothed*
gradient-profile values at those indices (`gradient_profile` in the
source is the Gaussian-filtered median profile, and it is the weight
array used by `np.average`). -/
theorem C5_centroids_from_maximal_runs (img : List (List ℝ)) (σ sig : ℚ) (iters : ℕ)
    (pm tm : List Bool) (low upp : List ℝ)
    (hok : find_mask_edges img σ sig iters = .ok (pm, tm, low, upp)) :
    (∀ e ∈ low, ∃ a n, 2 ≤ n ∧ isMaxRun (peak_mask img σ sig iters) a n ∧
      e = runCentroid (gradient_profile img σ) (List.range' a n)) ∧
    (∀ e ∈ upp, ∃ a n, 2 ≤ n ∧ isMaxRun (trough_mask img σ sig iters) a n ∧
      e = runCentroid (gradient_profile img σ) (List.range' a n)) := by
  obtain ⟨h1, h2, h3, h4⟩ := find_mask_edges_ok_inv img σ sig iters pm tm low upp hok
  constructor
  · intro e he
    rw [h3] at he
    obtain ⟨g, hg, rfl⟩ := List.mem_map.mp he
    have hgr : g ∈ groupRuns (peak_mask img σ sig iters) := List.mem_of_mem_filter hg
    obtain ⟨a, n, hsh, hmax⟩ := (groupRuns_spec _).1 g hgr
    have hlen : g.length = n := by rw [hsh]; exact List.length_range' _ _ _
    have hne1 : g.length ≠ 1 := by simpa using List.of_mem_filter hg
    have hn := hmax.1
    exact ⟨a, n, by omega, hmax, by rw [hsh]⟩
  · intro e he
    rw [h4] at he
    obtain ⟨g, hg, rfl⟩ := List.mem_map.mp he
    have hgr : g ∈ groupRuns (trough_mask img σ sig iters) := List.mem_of_mem_filter hg
    obtain ⟨a, n, hsh, hmax⟩ := (groupRuns_spec _).1 g hgr
    have hlen : g.length = n := by rw [hsh]; exact List.length_range' _ _ _
    have hne1 : g.length ≠ 1 := by simpa using List.of_mem_filter hg
    have hn := hmax.1
    exact ⟨a, n, by omega, hmax, by rw [hsh]⟩

/-- `mergeSort` with the real comparator leaves a sorted list unchanged. -/
theorem mergeSort_rle_eq_self (l : List ℝ) (h : List.Sorted (fun a b : ℝ => a ≤ b) l) :
    l.mergeSort rle = l := by
  have hp : List.Pairwise (fun a b : ℝ => rle a b = true) (l.mergeSort rle) :=
    List.sorted_mergeSort
      (fun a b c hab hbc => by
        simp only [rle, decide_eq_true_eq] at hab hbc ⊢
        exact le_trans hab hbc)
      (fun a b => by
        simp only [rle, Bool.or_eq_true, decide_eq_true_eq]
        exact le_total a b)
      l
  have hs : List.Sorted (fun a b : ℝ => a ≤ b) (l.mergeSort rle) :=
    hp.imp (fun hab => by simpa [rle] using hab)
  exact List.eq_of_perm_of_sorted (List.mergeSort_perm l rle) hs h

/-- `np.median` of a sorted list reads off the middle entries. -/
theorem npMedian_of_sorted (l : List ℝ) (h : List.Sorted (fun a b : ℝ => a ≤ b) l) :
    npMedian l = if l.length % 2 = 1 then l.getD (l.length / 2) 0
      else (l.getD (l.length / 2 - 1) 0 + l.getD (l.length / 2) 0) / 2 := by
  unfold npMedian
  rw [mergeSort_rle_eq_self l h]

/-- `np.median` of a single sample. -/
theorem npMedian_singleton (x : ℝ) : npMedian [x] = x := by
  rw [npMedian_of_sorted [x] (by simp)]
  simp

/-- `getD` of an all-zero real list is zero. -/
theorem getD_zero_of_all_zero (l : List ℝ) (h : ∀ x ∈ l, x = 0) (k : ℕ) :
    l.getD k 0 = 0 := by
  rcases hlt : l[k]? with _ | x
  · rw [List.getD_eq_getElem?_getD, hlt]
    rfl
  · rw [List.getD_eq_getElem?_getD, hlt]
    exact h x (List.getElem?_mem hlt)

/-- An all-zero list is sorted. -/
theorem sorted_of_all_zero (l : List ℝ) (h : ∀ x ∈ l, x = 0) :
    List.Sorted (fun a b : ℝ => a ≤ b) l := by
  induction l with
  | nil => exact List.sorted_nil
  | cons x xs ih =>
    refine List.sorted_cons.mpr ⟨?_, ih (fun y hy => h y (List.mem_cons_of_mem _ hy))⟩
    intro y hy
    rw [h x (List.mem_cons_self _ _), h y (List.mem_cons_of_mem _ hy)]

/-- `np.median` of an all-zero list. -/
theorem npMedian_all_zero (l : List ℝ) (h : ∀ x ∈ l, x = 0) : npMedian l = 0 := by
  rw [npMedian_of_sorted l (sorted_of_all_zero l h)]
  split_ifs
  · exact getD_zero_of_all_zero l h _
  · rw [getD_zero_of_all_zero l h, getD_zero_of_all_zero l h]
    norm_num

/-- `np.mean` of an all-zero list. -/
theorem npMean_all_zero (l : List ℝ) (h : ∀ x ∈ l, x = 0) : npMean l = 0 := by
  unfold npMean
  rw [List.sum_eq_zero h, zero_div]

/-- `np.var` of an all-zero list. -/
theorem npVar_all_zero (l : List ℝ) (h : ∀ x ∈ l, x = 0) : npVar l = 0 := by
  unfold npVar
  rw [List.sum_eq_zero, zero_div]
  intro y hy
  obtain ⟨x, hx, rfl⟩ := List.mem_map.mp hy
  rw [h x hx, npMean_all_zero l h]
  norm_num

/-- With the all-kept mask, the kept values are the whole data. -/
theorem keptVals_all_true (data : List ℝ) :
    ((data.zip (data.map (fun _ => true))).filterMap
      (fun xb => if xb.2 then some xb.1 else none)) = data := by
  induction data with
  | nil => rfl
  | cons x xs ih => simpa [List.filterMap_cons] using ih

/-- On all-zero data, one sigma-clip iteration keeps everything. -/
theorem keptStep_all_zero (data : List ℝ) (h : ∀ x ∈ data, x = 0) (sig : ℚ) :
    keptStep data sig (data.map (fun _ => true)) = data.map (fun _ => true) := by
  unfold keptStep
  rw [keptVals_all_true]
  cases data with
  | nil => rfl
  | cons x xs =>
    rw [if_neg (by simp)]
    rw [npMedian_all_zero _ h, npVar_all_zero _ h]
    apply List.map_congr_left
    intro y hy
    rw [h y hy]
    simp

/-- On all-zero data, sigma-clipping keeps everything, for any number of
iterations. -/
theorem sigmaClipKeep_all_zero (data : List ℝ) (h : ∀ x ∈ data, x = 0) (sig : ℚ)
    (iters : ℕ) : sigmaClipKeep data sig iters = data.map (fun _ => true) := by
  unfold sigmaClipKeep
  exact Function.iterate_fixed (keptStep_all_zero data h sig) iters

/-- The Gaussian filter of an all-zero profile is all-zero. -/
theorem gaussianFilter_all_zero (σ : ℚ) (l : List ℝ) (h : ∀ x ∈ l, x = 0) :
    gaussianFilter σ l = List.replicate l.length 0 := by
  apply List.ext_getElem?
  intro i
  unfold gaussianFilter
  rw [List.getElem?_map, List.getElem?_replicate]
  by_cases hi : i < l.length
  · rw [List.getElem?_range hi, if_pos hi]
    rw [Option.map_some']
    congr 1
    rw [List.sum_eq_zero, zero_div]
    intro t ht
    obtain ⟨k, hk, rfl⟩ := List.mem_map.mp ht
    rw [getD_zero_of_all_zero l h, mul_zero]
  · rw [List.getElem?_eq_none (by rw [List.length_range]; omega), if_neg hi]
    rfl

/-- The median gradient profile of the uniform 3x1 image. -/
theorem profile_uniform : medianGradientProfile [[3], [3], [3]] = [0, 0] := by
  have h1 : npDiffRows [[3], [3], [3]] = [[(3:ℝ) - 3], [(3:ℝ) - 3]] := rfl
  unfold medianGradientProfile
  rw [h1]
  simp [npMedian_singleton]

/-- On the uniform image nothing is clipped: no edge candidates. -/
theorem clippedCandidates_uniform (σ sig : ℚ) (iters : ℕ) :
    clippedCandidates [[3], [3], [3]] σ sig iters = [false, false] := by
  unfold clippedCandidates gradient_profile
  rw [profile_uniform]
  have hz : ∀ x ∈ [(0:ℝ), 0], x = 0 := by
    intro x hx
    rcases List.mem_cons.mp hx with rfl | hx2
    · rfl
    · simpa using hx2
  rw [gaussianFilter_all_zero σ _ hz]
  have hrep : List.replicate ([(0:ℝ), 0]).length 0 = [(0:ℝ), 0] := rfl
  rw [hrep, sigmaClipKeep_all_zero _ hz sig iters]
  rfl

/-- Witness for `C8_degenerate_inputs`: the uniform image has no
outliers and yields empty edge sequences. -/
theorem C8_degenerate_witness :
    (∀ c ∈ clippedCandidates [[3], [3], [3]] 3 2 5, c = false) ∧
    (∃ pm tm, find_mask_edges [[3], [3], [3]] 3 2 5 = .ok (pm, tm, [], [])) := by
  have hcc : ∀ c ∈ clippedCandidates [[3], [3], [3]] 3 2 5, c = false := by
    rw [clippedCandidates_uniform]
    intro c hc
    rcases List.mem_cons.mp hc with rfl | hc2
    · rfl
    · simpa using hc2
  exact ⟨hcc, (C8_degenerate_inputs 3 2 5).2 [[3], [3], [3]] hcc⟩

/-- Peak candidates of the uniform image: none. -/
theorem peak_mask_uniform : peak_mask [[3], [3], [3]] 3 2 5 = [false, false] := by
  unfold peak_mask
  rw [clippedCandidates_uniform]
  unfold gradient_profile
  rw [profile_uniform]
  have hz : ∀ x ∈ [(0:ℝ), 0], x = 0 := by
    intro x hx
    rcases List.mem_cons.mp hx with rfl | hx2
    · rfl
    · simpa using hx2
  rw [gaussianFilter_all_zero 3 _ hz]
  simp

/-- Trough candidates of the uniform image: none. -/
theorem trough_mask_uniform : trough_mask [[3], [3], [3]] 3 2 5 = [false, false] := by
  unfold trough_mask
  rw [clippedCandidates_uniform]
  unfold gradient_profile
  rw [profile_uniform]
  have hz : ∀ x ∈ [(0:ℝ), 0], x = 0 := by
    intro x hx
    rcases List.mem_cons.mp hx with rfl | hx2
    · rfl
    · simpa using hx2
  rw [gaussianFilter_all_zero 3 _ hz]
  simp

/-- `find_mask_edges` on the uniform image: no edges, no error. -/
theorem find_mask_edges_uniform :
    find_mask_edges [[3], [3], [3]] 3 2 5 = .ok ([false, false], [false, false], [], []) := by
  have hlg : lower_groups [[3], [3], [3]] 3 2 5 = [] := by
    unfold lower_groups
    rw [peak_mask_uniform]
    rfl
  have hug : upper_groups [[3], [3], [3]] 3 2 5 = [] := by
    unfold upper_groups
    rw [trough_mask_uniform]
    rfl
  unfold find_mask_edges
  rw [hlg, hug, peak_mask_uniform, trough_mask_uniform]
  simp

/-- Witness for `C9_edges_in_run_order` at the uniform image. -/
theorem C9_edges_in_run_order_witness :
    (find_mask_edges [[3], [3], [3]] 3 2 5 =
      .ok ([false, false], [false, false], [], [])) ∧
    (([] : List ℝ) = (lower_groups [[3], [3], [3]] 3 2 5).map
        (runCentroid (gradient_profile [[3], [3], [3]] 3)) ∧
     ([] : List ℝ) = (upper_groups [[3], [3], [3]] 3 2 5).map
        (runCentroid (gradient_profile [[3], [3], [3]] 3)) ∧
     List.Pairwise (fun r s : List ℕ => r.headD 0 < s.headD 0)
       (lower_groups [[3], [3], [3]] 3 2 5) ∧
     List.Pairwise (fun r s : List ℕ => r.headD 0 < s.headD 0)
       (upper_groups [[3], [3], [3]] 3 2 5)) :=
  ⟨find_mask_edges_uniform,
   C9_edges_in_run_order [[3], [3], [3]] 3 2 5 [false, false] [false, false] [] []
     find_mask_edges_uniform⟩

/-- The median gradient profile of `img13`. -/
theorem profile_img13 : medianGradientProfile img13 = p12 := by
  have h1 : npDiffRows img13 =
      [[(0:ℝ) - 0], [(0:ℝ) - 0], [(0:ℝ) - 0], [(0:ℝ) - 0], [(0:ℝ) - 0],
       [(0:ℝ) - 0], [(0:ℝ) - 0], [(0:ℝ) - 0], [(0:ℝ) - 0], [(0:ℝ) - 0],
       [(100:ℝ) - 0], [(200:ℝ) - 100]] := rfl
  unfold medianGradientProfile p12
  rw [h1]
  simp only [List.map_cons, List.map_nil, npMedian_singleton]
  norm_num

/-- The scipy kernel radius at `sigma = 1/5` is 1. -/
theorem radius_fifth : gaussKernelRadius (1/5) = 1 := by
  norm_num [gaussKernelRadius, ratTrunc]

/-- Center kernel weight. -/
theorem gaussWeight_fifth_zero : gaussWeight (1/5) 0 = 1 := by
  unfold gaussWeight
  norm_num [Real.exp_zero]

/-- Right kernel weight. -/
theorem gaussWeight_fifth_one : gaussWeight (1/5) 1 = eGauss := by
  unfold gaussWeight eGauss
  norm_num

/-- Left kernel weight. -/
theorem gaussWeight_fifth_negone : gaussWeight (1/5) (-1) = eGauss := by
  unfold gaussWeight eGauss
  norm_num

/-- The smoothed profile of `img13`: the Gaussian filter smears weight
`eGauss` of the step onto index 9 and asymmetric weight onto 10, 11. -/
theorem gradient_profile_img13 : gradient_profile img13 (1/5) = s12 := by
  unfold gradient_profile
  rw [profile_img13]
  have hks : (List.range (2 * gaussKernelRadius (1/5) + 1)).map
      (fun j => Int.ofNat j - Int.ofNat (gaussKernelRadius (1/5))) = [-1, 0, 1] := by
    rw [radius_fifth]
    decide
  simp only [gaussianFilter]
  rw [hks]
  have hlen : (p12).length = 12 := rfl
  rw [hlen]
  have hrange : List.range 12 = [0, 1, 2, 3, 4, 5, 6, 7, 8, 9, 10, 11] := by decide
  rw [hrange]
  unfold p12 s12
  simp only [List.map_cons, List.map_nil, List.sum_cons, List.sum_nil,
    gaussWeight_fifth_zero, gaussWeight_fifth_one, gaussWeight_fifth_negone,
    show reflectIdx 12 (Int.ofNat 0 + -1) = 0 from by decide,
    show reflectIdx 12 (Int.ofNat 0 + 0) = 0 from by decide,
    show reflectIdx 12 (Int.ofNat 0 + 1) = 1 from by decide,
    show reflectIdx 12 (Int.ofNat 1 + -1) = 0 from by decide,
    show reflectIdx 12 (Int.ofNat 1 + 0) = 1 from by decide,
    show reflectIdx 12 (Int.ofNat 1 + 1) = 2 from by decide,
    show reflectIdx 12 (Int.ofNat 2 + -1) = 1 from by decide,
    show reflectIdx 12 (Int.ofNat 2 + 0) = 2 from by decide,
    show reflectIdx 12 (Int.ofNat 2 + 1) = 3 from by decide,
    show reflectIdx 12 (Int.ofNat 3 + -1) = 2 from by decide,
    show reflectIdx 12 (Int.ofNat 3 + 0) = 3 from by decide,
    show reflectIdx 12 (Int.ofNat 3 + 1) = 4 from by decide,
    show reflectIdx 12 (Int.ofNat 4 + -1) = 3 from by decide,
    show reflectIdx 12 (Int.ofNat 4 + 0) = 4 from by decide,
    show reflectIdx 12 (Int.ofNat 4 + 1) = 5 from by decide,
    show reflectIdx 12 (Int.ofNat 5 + -1) = 4 from by decide,
    show reflectIdx 12 (Int.ofNat 5 + 0) = 5 from by decide,
    show reflectIdx 12 (Int.ofNat 5 + 1) = 6 from by decide,
    show reflectIdx 12 (Int.ofNat 6 + -1) = 5 from by decide,
    show reflectIdx 12 (Int.ofNat 6 + 0) = 6 from by decide,
    show reflectIdx 12 (Int.ofNat 6 + 1) = 7 from by decide,
    show reflectIdx 12 (Int.ofNat 7 + -1) = 6 from by decide,
    show reflectIdx 12 (Int.ofNat 7 + 0) = 7 from by decide,
    show reflectIdx 12 (Int.ofNat 7 + 1) = 8 from by decide,
    show reflectIdx 12 (Int.ofNat 8 + -1) = 7 from by decide,
    show reflectIdx 12 (Int.ofNat 8 + 0) = 8 from by decide,
    show reflectIdx 12 (Int.ofNat 8 + 1) = 9 from by decide,
    show reflectIdx 12 (Int.ofNat 9 + -1) = 8 from by decide,
    show reflectIdx 12 (Int.ofNat 9 + 0) = 9 from by decide,
    show reflectIdx 12 (Int.ofNat 9 + 1) = 10 from by decide,
    show reflectIdx 12 (Int.ofNat 10 + -1) = 9 from by decide,
    show reflectIdx 12 (Int.ofNat 10 + 0) = 10 from by decide,
    show reflectIdx 12 (Int.ofNat 10 + 1) = 11 from by decide,
    show reflectIdx 12 (Int.ofNat 11 + -1) = 10 from by decide,
    show reflectIdx 12 (Int.ofNat 11 + 0) = 11 from by decide,
    show reflectIdx 12 (Int.ofNat 11 + 1) = 11 from by decide,
    show List.getD [(0:ℝ), 0, 0, 0, 0, 0, 0, 0, 0, 0, 100, 100] 0 0 = 0 from rfl,
    show List.getD [(0:ℝ), 0, 0, 0, 0, 0, 0, 0, 0, 0, 100, 100] 1 0 = 0 from rfl,
    show List.getD [(0:ℝ), 0, 0, 0, 0, 0, 0, 0, 0, 0, 100, 100] 2 0 = 0 from rfl,
    show List.getD [(0:ℝ), 0, 0, 0, 0, 0, 0, 0, 0, 0, 100, 100] 3 0 = 0 from rfl,
    show List.getD [(0:ℝ), 0, 0, 0, 0, 0, 0, 0, 0, 0, 100, 100] 4 0 = 0 from rfl,
    show List.getD [(0:ℝ), 0, 0, 0, 0, 0, 0, 0, 0, 0, 100, 100] 5 0 = 0 from rfl,
    show List.getD [(0:ℝ), 0, 0, 0, 0, 0, 0, 0, 0, 0, 100, 100] 6 0 = 0 from rfl,
    show List.getD [(0:ℝ), 0, 0, 0, 0, 0, 0, 0, 0, 0, 100, 100] 7 0 = 0 from rfl,
    show List.getD [(0:ℝ), 0, 0, 0, 0, 0, 0, 0, 0, 0, 100, 100] 8 0 = 0 from rfl,
    show List.getD [(0:ℝ), 0, 0, 0, 0, 0, 0, 0, 0, 0, 100, 100] 9 0 = 0 from rfl,
    show List.getD [(0:ℝ), 0, 0, 0, 0, 0, 0, 0, 0, 0, 100, 100] 10 0 = 100 from rfl,
    show List.getD [(0:ℝ), 0, 0, 0, 0, 0, 0, 0, 0, 0, 100, 100] 11 0 = 100 from rfl]
  have hD : eGauss + (1 + (eGauss + 0)) = 1 + 2 * eGauss := by ring
  rw [hD]
  norm_num
  constructor
  · ring
  constructor
  · ring
  · ring

/-- The kernel tail weight is positive. -/
theorem eGauss_pos : 0 < eGauss := Real.exp_pos _

/-- The kernel tail weight is below one. -/
theorem eGauss_lt_one : eGauss < 1 := by
  unfold eGauss
  rw [Real.exp_lt_one_iff]
  norm_num

/-- `np.var` is non-negative. -/
theorem npVar_nonneg (l : List ℝ) : 0 ≤ npVar l := by
  unfold npVar
  apply div_nonneg
  · apply List.sum_nonneg
    intro x hx
    obtain ⟨y, hy, rfl⟩ := List.mem_map.mp hx
    positivity
  · positivity

/-- The smoothed profile of `img13` is sorted. -/
theorem sorted_s12 : List.Sorted (fun a b : ℝ => a ≤ b) s12 := by
  have hE := eGauss_pos
  have hD : (0:ℝ) < 1 + 2 * eGauss := by nlinarith
  unfold s12
  simp only [List.sorted_cons, List.mem_cons, List.mem_singleton, List.not_mem_nil]
  norm_num
  repeat' constructor
  all_goals
    first
      | positivity
      | (rw [div_le_div_iff₀ hD hD]; nlinarith)

/-- The median of the smoothed profile of `img13` is `0` (the middle
entries of the 12-point sorted profile are zeros). -/
theorem npMedian_s12 : npMedian s12 = 0 := by
  rw [npMedian_of_sorted s12 sorted_s12]
  have hlen : s12.length = 12 := rfl
  rw [hlen]
  norm_num
  have h5 : s12[5]? = some (0:ℝ) := rfl
  have h6 : s12[6]? = some (0:ℝ) := rfl
  rw [h5, h6]
  norm_num

/-- Closed form of the variance of the smoothed profile of `img13`. -/
theorem npVar_s12 : npVar s12 =
    (200000 + 560000 * eGauss + 560000 * eGauss ^ 2) /
      (144 * (1 + 2 * eGauss) ^ 2) := by
  have hE := eGauss_pos
  have hD : (0:ℝ) < 1 + 2 * eGauss := by nlinarith
  unfold npVar npMean s12
  simp only [List.map_cons, List.map_nil, List.sum_cons, List.sum_nil, List.length_cons,
    List.length_nil]
  push_cast
  field_simp
  ring

/-- First sigma-clip iteration on the smoothed profile of `img13`:
indices 10 and 11 are clipped, index 9 survives the first cut. -/
theorem kept1_img13 :
    keptStep s12 2 (s12.map (fun _ => true)) =
      [true, true, true, true, true, true, true, true, true, true, false, false] := by
  have hE := eGauss_pos
  have hE1 := eGauss_lt_one
  have hD : (0:ℝ) < 1 + 2 * eGauss := by nlinarith
  have hD2 : (0:ℝ) < (1 + 2 * eGauss) ^ 2 := pow_pos hD 2
  have hden : (0:ℝ) < 144 * (1 + 2 * eGauss) ^ 2 := by nlinarith
  have hkv : ((s12.zip (s12.map (fun _ => true))).filterMap
      (fun xb => if xb.2 then some xb.1 else none)) = s12 := rfl
  simp only [keptStep]
  rw [hkv, show s12.isEmpty = false from rfl]
  simp only [Bool.false_eq_true, if_false]
  rw [npMedian_s12, npVar_s12, show (((2:ℚ)):ℝ) = 2 from by norm_num]
  have hVpos : (0:ℝ) ≤ (200000 + 560000 * eGauss + 560000 * eGauss ^ 2) /
      (144 * (1 + 2 * eGauss) ^ 2) := div_nonneg (by nlinarith) hden.le
  have hz : decide ((((0:ℝ)) - 0) ^ 2 ≤ (200000 + 560000 * eGauss + 560000 * eGauss ^ 2) /
      (144 * (1 + 2 * eGauss) ^ 2) * (2:ℝ) ^ 2) = true := by
    rw [decide_eq_true_eq]
    nlinarith [hVpos]
  have h9 : decide ((100 * eGauss / (1 + 2 * eGauss) - 0) ^ 2 ≤
      (200000 + 560000 * eGauss + 560000 * eGauss ^ 2) /
      (144 * (1 + 2 * eGauss) ^ 2) * (2:ℝ) ^ 2) = true := by
    rw [decide_eq_true_eq, sub_zero, div_pow, div_mul_eq_mul_div,
      div_le_div_iff₀ hD2 hden]
    nlinarith [mul_pos (show (0:ℝ) < 800000 + 2240000 * eGauss + 800000 * eGauss ^ 2 from
      by nlinarith) hD2]
  have h10 : decide (((100 + 100 * eGauss) / (1 + 2 * eGauss) - 0) ^ 2 ≤
      (200000 + 560000 * eGauss + 560000 * eGauss ^ 2) /
      (144 * (1 + 2 * eGauss) ^ 2) * (2:ℝ) ^ 2) = false := by
    rw [decide_eq_false_iff_not, not_le, sub_zero, div_pow, div_mul_eq_mul_div,
      div_lt_div_iff₀ hden hD2]
    nlinarith [mul_pos (show (0:ℝ) < 640000 + 640000 * eGauss - 800000 * eGauss ^ 2 from
      by nlinarith) hD2]
  have h11 : decide (((100 + 200 * eGauss) / (1 + 2 * eGauss) - 0) ^ 2 ≤
      (200000 + 560000 * eGauss + 560000 * eGauss ^ 2) /
      (144 * (1 + 2 * eGauss) ^ 2) * (2:ℝ) ^ 2) = false := by
    rw [decide_eq_false_iff_not, not_le, sub_zero, div_pow, div_mul_eq_mul_div,
      div_lt_div_iff₀ hden hD2]
    nlinarith [mul_pos (show (0:ℝ) < 640000 + 3520000 * eGauss + 3520000 * eGauss ^ 2 from
      by nlinarith) hD2]
  show s12.map _ = _
  simp only [s12, List.map_cons, List.map_nil]
  rw [hz, h9, h10, h11]

/-- The post-first-iteration kept values are sorted. -/
theorem sorted_kv2 : List.Sorted (fun a b : ℝ => a ≤ b) kv2 := by
  have hE := eGauss_pos
  have hD : (0:ℝ) < 1 + 2 * eGauss := by nlinarith
  have ha : (0:ℝ) ≤ 100 * eGauss / (1 + 2 * eGauss) :=
    div_nonneg (by nlinarith) hD.le
  unfold kv2
  simp only [List.sorted_cons, List.mem_cons, List.mem_singleton, List.not_mem_nil]
  norm_num
  exact ha

/-- Median of the post-first-iteration kept values. -/
theorem npMedian_kv2 : npMedian kv2 = 0 := by
  rw [npMedian_of_sorted kv2 sorted_kv2]
  have hlen : kv2.length = 10 := rfl
  rw [hlen]
  norm_num
  have h4 : kv2[4]? = some (0:ℝ) := rfl
  have h5 : kv2[5]? = some (0:ℝ) := rfl
  rw [h4, h5]
  norm_num

/-- Variance of the post-first-iteration kept values. -/
theorem npVar_kv2 : npVar kv2 = 900 * eGauss ^ 2 / (1 + 2 * eGauss) ^ 2 := by
  have hE := eGauss_pos
  have hD : (0:ℝ) < 1 + 2 * eGauss := by nlinarith
  unfold npVar npMean kv2
  simp only [List.map_cons, List.map_nil, List.sum_cons, List.sum_nil, List.length_cons,
    List.length_nil]
  push_cast
  field_simp
  ring

/-- Second sigma-clip iteration: with the median back at `0` and the
variance collapsed to that of the single surviving nonzero value,
index 9 is clipped as well. -/
theorem kept2_img13 :
    keptStep s12 2
      [true, true, true, true, true, true, true, true, true, true, false, false] =
      [true, true, true, true, true, true, true, true, true, false, false, false] := by
  have hE := eGauss_pos
  have hE1 := eGauss_lt_one
  have hD : (0:ℝ) < 1 + 2 * eGauss := by nlinarith
  have hD2 : (0:ℝ) < (1 + 2 * eGauss) ^ 2 := pow_pos hD 2
  have hE2 : (0:ℝ) < eGauss ^ 2 := pow_pos hE 2
  have hkv : ((s12.zip
      [true, true, true, true, true, true, true, true, true, true, false, false]).filterMap
      (fun xb => if xb.2 then some xb.1 else none)) = kv2 := rfl
  simp only [keptStep]
  rw [hkv, show kv2.isEmpty = false from rfl]
  simp only [Bool.false_eq_true, if_false]
  rw [npMedian_kv2, npVar_kv2, show (((2:ℚ)):ℝ) = 2 from by norm_num]
  have hVpos : (0:ℝ) ≤ 900 * eGauss ^ 2 / (1 + 2 * eGauss) ^ 2 :=
    div_nonneg (by nlinarith) hD2.le
  have hz : decide ((((0:ℝ)) - 0) ^ 2 ≤
      900 * eGauss ^ 2 / (1 + 2 * eGauss) ^ 2 * (2:ℝ) ^ 2) = true := by
    rw [decide_eq_true_eq]
    nlinarith [hVpos]
  have h9 : decide ((100 * eGauss / (1 + 2 * eGauss) - 0) ^ 2 ≤
      900 * eGauss ^ 2 / (1 + 2 * eGauss) ^ 2 * (2:ℝ) ^ 2) = false := by
    rw [decide_eq_false_iff_not, not_le, sub_zero, div_pow, div_mul_eq_mul_div,
      div_lt_div_iff₀ hD2 hD2]
    nlinarith [mul_pos (show (0:ℝ) < 6400 * eGauss ^ 2 from by nlinarith) hD2]
  have h10 : decide (((100 + 100 * eGauss) / (1 + 2 * eGauss) - 0) ^ 2 ≤
      900 * eGauss ^ 2 / (1 + 2 * eGauss) ^ 2 * (2:ℝ) ^ 2) = false := by
    rw [decide_eq_false_iff_not, not_le, sub_zero, div_pow, div_mul_eq_mul_div,
      div_lt_div_iff₀ hD2 hD2]
    nlinarith [mul_pos (show (0:ℝ) < 10000 + 20000 * eGauss + 6400 * eGauss ^ 2 from
      by nlinarith) hD2]
  have h11 : decide (((100 + 200 * eGauss) / (1 + 2 * eGauss) - 0) ^ 2 ≤
      900 * eGauss ^ 2 / (1 + 2 * eGauss) ^ 2 * (2:ℝ) ^ 2) = false := by
    rw [decide_eq_false_iff_not, not_le, sub_zero, div_pow, div_mul_eq_mul_div,
      div_lt_div_iff₀ hD2 hD2]
    nlinarith [mul_pos (show (0:ℝ) < 10000 + 40000 * eGauss + 36400 * eGauss ^ 2 from
      by nlinarith) hD2]
  show s12.map _ = _
  simp only [s12, List.map_cons, List.map_nil]
  rw [hz, h9, h10, h11]

/-- Third sigma-clip iteration: only zeros survive, so the variance is
`0` and the mask is a fixed point of the iteration. -/
theorem kept3_img13 :
    keptStep s12 2
      [true, true, true, true, true, true, true, true, true, false, false, false] =
      [true, true, true, true, true, true, true, true, true, false, false, false] := by
  have hE := eGauss_pos
  have hD : (0:ℝ) < 1 + 2 * eGauss := by nlinarith
  have ha : (0:ℝ) < 100 * eGauss / (1 + 2 * eGauss) := div_pos (by nlinarith) hD
  have hb : (0:ℝ) < (100 + 100 * eGauss) / (1 + 2 * eGauss) := div_pos (by nlinarith) hD
  have hc : (0:ℝ) < (100 + 200 * eGauss) / (1 + 2 * eGauss) := div_pos (by nlinarith) hD
  have hkv : ((s12.zip
      [true, true, true, true, true, true, true, true, true, false, false, false]).filterMap
      (fun xb => if xb.2 then some xb.1 else none)) =
      [(0:ℝ), 0, 0, 0, 0, 0, 0, 0, 0] := rfl
  have hmem : ∀ x ∈ [(0:ℝ), 0, 0, 0, 0, 0, 0, 0, 0], x = 0 := by
    intro x hx
    simp only [List.mem_cons, List.not_mem_nil, or_false] at hx
    simpa using hx
  simp only [keptStep]
  rw [hkv, show ([(0:ℝ), 0, 0, 0, 0, 0, 0, 0, 0]).isEmpty = false from rfl]
  simp only [Bool.false_eq_true, if_false]
  rw [npMedian_all_zero _ hmem, npVar_all_zero _ hmem,
    show (((2:ℚ)):ℝ) = 2 from by norm_num]
  have hz : decide ((((0:ℝ)) - 0) ^ 2 ≤ 0 * (2:ℝ) ^ 2) = true := by
    rw [decide_eq_true_eq]; norm_num
  have h9 : decide ((100 * eGauss / (1 + 2 * eGauss) - 0) ^ 2 ≤ 0 * (2:ℝ) ^ 2) = false := by
    rw [decide_eq_false_iff_not, not_le, sub_zero]
    nlinarith [ha]
  have h10 : decide (((100 + 100 * eGauss) / (1 + 2 * eGauss) - 0) ^ 2 ≤
      0 * (2:ℝ) ^ 2) = false := by
    rw [decide_eq_false_iff_not, not_le, sub_zero]
    nlinarith [hb]
  have h11 : decide (((100 + 200 * eGauss) / (1 + 2 * eGauss) - 0) ^ 2 ≤
      0 * (2:ℝ) ^ 2) = false := by
    rw [decide_eq_false_iff_not, not_le, sub_zero]
    nlinarith [hc]
  show s12.map _ = _
  simp only [s12, List.map_cons, List.map_nil]
  rw [hz, h9, h10, h11]

/-- The five-iteration sigma-clip keep mask on the smoothed profile of
`img13`: indices 9, 10, 11 are clipped. -/
theorem sigmaClipKeep_img13 :
    sigmaClipKeep s12 2 5 =
      [true, true, true, true, true, true, true, true, true, false, false, false] := by
  unfold sigmaClipKeep
  rw [show (5:ℕ) = 4 + 1 from rfl, Function.iterate_succ_apply, kept1_img13]
  rw [show (4:ℕ) = 3 + 1 from rfl, Function.iterate_succ_apply, kept2_img13]
  rw [show (3:ℕ) = 2 + 1 from rfl, Function.iterate_succ_apply, kept3_img13]
  rw [show (2:ℕ) = 1 + 1 from rfl, Function.iterate_succ_apply, kept3_img13]
  rw [show (1:ℕ) = 0 + 1 from rfl, Function.iterate_succ_apply, kept3_img13,
    Function.iterate_zero_apply]

/-- The sigma-clip outlier candidates of `img13`. -/
theorem clippedCandidates_img13 :
    clippedCandidates img13 (1/5) 2 5 =
      [false, false, false, false, false, false, false, false, false, true, true, true] := by
  unfold clippedCandidates
  rw [gradient_profile_img13, sigmaClipKeep_img13]
  rfl

/-- The peak candidate mask of `img13`: all three outliers have a
non-negative smoothed gradient. -/
theorem peak_mask_img13 :
    peak_mask img13 (1/5) 2 5 =
      [false, false, false, false, false, false, false, false, false, true, true, true] := by
  have hE := eGauss_pos
  have hD : (0:ℝ) < 1 + 2 * eGauss := by nlinarith
  have ha : (0:ℝ) ≤ 100 * eGauss / (1 + 2 * eGauss) := (div_pos (by nlinarith) hD).le
  have hb : (0:ℝ) ≤ (100 + 100 * eGauss) / (1 + 2 * eGauss) :=
    (div_pos (by nlinarith) hD).le
  have hc : (0:ℝ) ≤ (100 + 200 * eGauss) / (1 + 2 * eGauss) :=
    (div_pos (by nlinarith) hD).le
  unfold peak_mask
  rw [clippedCandidates_img13, gradient_profile_img13]
  simp only [s12, List.zipWith_cons_cons, List.zipWith_nil, Bool.false_and, Bool.true_and]
  rw [show decide ((0:ℝ) ≤ 100 * eGauss / (1 + 2 * eGauss)) = true from
      decide_eq_true ha,
    show decide ((0:ℝ) ≤ (100 + 100 * eGauss) / (1 + 2 * eGauss)) = true from
      decide_eq_true hb,
    show decide ((0:ℝ) ≤ (100 + 200 * eGauss) / (1 + 2 * eGauss)) = true from
      decide_eq_true hc]

/-- The trough candidate mask of `img13` is empty: no outlier has a
negative smoothed gradient. -/
theorem trough_mask_img13 :
    trough_mask img13 (1/5) 2 5 =
      [false, false, false, false, false, false, false, false, false, false, false, false] := by
  have hE := eGauss_pos
  have hD : (0:ℝ) < 1 + 2 * eGauss := by nlinarith
  have ha : ¬ (100 * eGauss / (1 + 2 * eGauss) < (0:ℝ)) :=
    not_lt.mpr (div_pos (by nlinarith) hD).le
  have hb : ¬ ((100 + 100 * eGauss) / (1 + 2 * eGauss) < (0:ℝ)) :=
    not_lt.mpr (div_pos (by nlinarith) hD).le
  have hc : ¬ ((100 + 200 * eGauss) / (1 + 2 * eGauss) < (0:ℝ)) :=
    not_lt.mpr (div_pos (by nlinarith) hD).le
  unfold trough_mask
  rw [clippedCandidates_img13, gradient_profile_img13]
  simp only [s12, List.zipWith_cons_cons, List.zipWith_nil, Bool.false_and, Bool.true_and]
  rw [show decide (100 * eGauss / (1 + 2 * eGauss) < (0:ℝ)) = false from
      decide_eq_false ha,
    show decide ((100 + 100 * eGauss) / (1 + 2 * eGauss) < (0:ℝ)) = false from
      decide_eq_false hb,
    show decide ((100 + 200 * eGauss) / (1 + 2 * eGauss) < (0:ℝ)) = false from
      decide_eq_false hc]

/-- The single surviving lower-edge group of `img13` is the run
`[9, 10, 11]`. -/
theorem lower_groups_img13 : lower_groups img13 (1/5) 2 5 = [[9, 10, 11]] := by
  unfold lower_groups
  rw [peak_mask_img13]
  decide

/-- `img13` has no upper-edge groups. -/
theorem upper_groups_img13 : upper_groups img13 (1/5) 2 5 = [] := by
  unfold upper_groups
  rw [trough_mask_img13]
  decide

/-- The smoothed weights of the run `[9, 10, 11]` sum to exactly `200`
(the filter conserves total weight and the run captures all of it). -/
theorem runWeightSum_img13 : runWeightSum s12 [9, 10, 11] = 200 := by
  have hE := eGauss_pos
  have hD : (0:ℝ) < 1 + 2 * eGauss := by nlinarith
  have h9 : s12.getD 9 0 = 100 * eGauss / (1 + 2 * eGauss) := rfl
  have h10 : s12.getD 10 0 = (100 + 100 * eGauss) / (1 + 2 * eGauss) := rfl
  have h11 : s12.getD 11 0 = (100 + 200 * eGauss) / (1 + 2 * eGauss) := rfl
  unfold runWeightSum
  simp only [List.map_cons, List.map_nil, List.sum_cons, List.sum_nil, h9, h10, h11]
  field_simp
  ring

/-- The reported centroid of the run `[9, 10, 11]`, weighted by the
smoothed profile. -/
theorem runCentroid_img13 :
    runCentroid s12 [9, 10, 11] =
      (2100 + 4100 * eGauss) / (200 + 400 * eGauss) := by
  have hE := eGauss_pos
  have hD : (0:ℝ) < 1 + 2 * eGauss := by nlinarith
  have h9 : s12.getD 9 0 = 100 * eGauss / (1 + 2 * eGauss) := rfl
  have h10 : s12.getD 10 0 = (100 + 100 * eGauss) / (1 + 2 * eGauss) := rfl
  have h11 : s12.getD 11 0 = (100 + 200 * eGauss) / (1 + 2 * eGauss) := rfl
  unfold runCentroid
  rw [runWeightSum_img13]
  simp only [List.map_cons, List.map_nil, List.sum_cons, List.sum_nil, h9, h10, h11]
  push_cast
  rw [div_eq_div_iff (by norm_num) (by nlinarith)]
  field_simp
  ring

/-- `find_mask_edges` on `img13` succeeds and reports the single
lower-edge centroid weighted by the smoothed profile. -/
theorem find_mask_edges_img13 :
    find_mask_edges img13 (1/5) 2 5 = .ok
      ([false, false, false, false, false, false, false, false, false, true, true, true],
       [false, false, false, false, false, false, false, false, false, false, false, false],
       [(2100 + 4100 * eGauss) / (200 + 400 * eGauss)], []) := by
  unfold find_mask_edges
  rw [lower_groups_img13, upper_groups_img13, gradient_profile_img13]
  have hc : (([[9, 10, 11]] ++ ([] : List (List ℕ))).any
      (fun g => decide (runWeightSum s12 g = 0))) = false := by
    simp only [List.append_nil, List.any_cons, List.any_nil, Bool.or_false]
    rw [show decide (runWeightSum s12 [9, 10, 11] = 0) = false from
      decide_eq_false (by rw [runWeightSum_img13]; norm_num)]
  rw [hc]
  simp only [Bool.false_eq_true, if_false, List.map_cons, List.map_nil,
    peak_mask_img13, trough_mask_img13, runCentroid_img13]

/-- The centroid the spec describes for the same run: row indices
weighted by the unsmoothed gradient-profile magnitude. -/
theorem specCentroid_img13 :
    specRunCentroidUnsmoothed p12 [9, 10, 11] = 21 / 2 := by
  have h9 : p12.getD 9 0 = 0 := rfl
  have h10 : p12.getD 10 0 = 100 := rfl
  have h11 : p12.getD 11 0 = 100 := rfl
  unfold specRunCentroidUnsmoothed
  simp only [List.map_cons, List.map_nil, List.sum_cons, List.sum_nil, h9, h10, h11]
  push_cast
  rw [abs_of_nonneg (by norm_num : (0:ℝ) ≤ 0), abs_of_nonneg (by norm_num : (0:ℝ) ≤ 100)]
  norm_num

/-- The two centroids differ: the reported one is dragged upward by the
smoothing leakage onto index 9 relative to the unsmoothed weighting. -/
theorem centroid_ne_spec_img13 :
    (2100 + 4100 * eGauss) / (200 + 400 * eGauss) ≠ 21 / 2 := by
  have hE := eGauss_pos
  have hden : (0:ℝ) < 200 + 400 * eGauss := by nlinarith
  intro h
  rw [div_eq_div_iff hden.ne' (by norm_num : (2:ℝ) ≠ 0)] at h
  nlinarith [hE]

/-- C5 counterexample: on the 13x1 image `img13` (sigma = 1/5, clip
sigma 2, 5 iterations) the single reported lower-edge position comes
from the maximal run `[9, 10, 11]` of candidates, but it does not equal
the average of those row indices weighted by the unsmoothed
gradient-profile magnitudes, which is `21/2`; the code weights by the
smoothed profile instead. -/
theorem C5_counterexample :
    find_mask_edges img13 (1/5) 2 5 = .ok
      ([false, false, false, false, false, false, false, false, false, true, true, true],
       [false, false, false, false, false, false, false, false, false, false, false, false],
       [(2100 + 4100 * eGauss) / (200 + 400 * eGauss)], []) ∧
    lower_groups img13 (1/5) 2 5 = [[9, 10, 11]] ∧
    medianGradientProfile img13 = p12 ∧
    specRunCentroidUnsmoothed p12 [9, 10, 11] = 21 / 2 ∧
    (2100 + 4100 * eGauss) / (200 + 400 * eGauss) ≠ 21 / 2 :=
  ⟨find_mask_edges_img13, lower_groups_img13, profile_img13, specCentroid_img13,
    centroid_ne_spec_img13⟩

/-- Witness for the amended C5 theorem at the concrete image `img13`. -/
theorem C5_centroids_witness :
    (∀ e ∈ [(2100 + 4100 * eGauss) / (200 + 400 * eGauss)], ∃ a n, 2 ≤ n ∧
      isMaxRun (peak_mask img13 (1/5) 2 5) a n ∧
      e = runCentroid (gradient_profile img13 (1/5)) (List.range' a n)) ∧
    (∀ e ∈ ([] : List ℝ), ∃ a n, 2 ≤ n ∧
      isMaxRun (trough_mask img13 (1/5) 2 5) a n ∧
      e = runCentroid (gradient_profile img13 (1/5)) (List.range' a n)) :=
  C5_centroids_from_maximal_runs img13 (1/5) 2 5
    [false, false, false, false, false, false, false, false, false, true, true, true]
    [false, false, false, false, false, false, false, false, false, false, false, false]
    [(2100 + 4100 * eGauss) / (200 + 400 * eGauss)] []
    find_mask_edges_img13
